import Mathlib

/-!
Smartlog chaincodes: Keystore, TransportChain, UBL.

A shallow embedding of the three chaincodes of `smartlog-chaincodes`
(`src/Keystore/Keystore.go`, `src/TransportChain/TransportChain.go`,
`src/UBL/UBL.go`) and of the part of the host runtime they call.

Conventions of the embedding.

* A Go `string` or `[]byte` is a `GoString`, a list of bytes; it need not be
  valid UTF-8. A string literal `"..."` of the source is written `str "..."`.
  A `nil` byte slice is the empty list. The participant slice of a chain,
  which `encoding/json` writes as `null` when it is `nil` and as an array
  otherwise, is an `Option (List GoString)` with `none` for `nil`; the other
  slices are a `List`, a `nil` slice the empty list.
* A handler is a function from the stub (the ledger as the host presents it)
  and the argument list to the response and the stub after the call.
* `encoding/json` and `encoding/base64` are libraries outside the repository.
  The handlers take them as parameters (`Json`, `DecodeString`); `JsonLaws`
  states the facts about `encoding/json` that the theorems use. `goJson` and
  `StdEncoding_DecodeString` are executable instances used to evaluate the
  handlers on concrete inputs.
-/

namespace Smartlog

/-! ## Go strings -/

/-- A Go `string` or `[]byte`: a sequence of bytes. -/
abbrev GoString := List UInt8

/-- UTF-8 encoding of one character (`utf8.EncodeRune`). -/
def encodeRune (c : Char) : List UInt8 :=
  if c.toNat < 128 then [UInt8.ofNat c.toNat]
  else if c.toNat < 2048 then [UInt8.ofNat (192 + c.toNat / 64), UInt8.ofNat (128 + c.toNat % 64)]
  else if c.toNat < 65536 then
    [UInt8.ofNat (224 + c.toNat / 4096), UInt8.ofNat (128 + c.toNat / 64 % 64),
      UInt8.ofNat (128 + c.toNat % 64)]
  else
    [UInt8.ofNat (240 + c.toNat / 262144), UInt8.ofNat (128 + c.toNat / 4096 % 64),
      UInt8.ofNat (128 + c.toNat / 64 % 64), UInt8.ofNat (128 + c.toNat % 64)]

/-- UTF-8 encoding of a text. -/
def utf8 (l : List Char) : GoString := l.flatMap encodeRune

/-- The Go string denoted by a string literal of the source. -/
def str (s : String) : GoString := utf8 s.data

/-- The byte of an ASCII character. -/
def byte (c : Char) : UInt8 := UInt8.ofNat c.toNat

/-- A UTF-8 continuation byte. -/
def isCont (n : Nat) : Prop := 128 ≤ n ∧ n < 192

instance decIsCont (n : Nat) : Decidable (isCont n) := by
  unfold isCont; infer_instance

/-- `utf8.DecodeRune` on the string that starts with `b0` and goes on with
`rest`: the character encoded at the front and the number of bytes of its
encoding, or `none` where the library reports `RuneError` with width 1 (no
valid encoding starts here: a stray or missing continuation byte, an overlong
form, a surrogate, a value above U+10FFFF). -/
def decodeRune (b0 : UInt8) (rest : List UInt8) : Option (Char × Nat) :=
  let n0 := b0.toNat
  let n1 := (rest.getD 0 0).toNat
  let n2 := (rest.getD 1 0).toNat
  let n3 := (rest.getD 2 0).toNat
  let v2 := (n0 - 192) * 64 + (n1 - 128)
  let v3 := (n0 - 224) * 4096 + (n1 - 128) * 64 + (n2 - 128)
  let v4 := (n0 - 240) * 262144 + (n1 - 128) * 4096 + (n2 - 128) * 64 + (n3 - 128)
  if n0 < 128 then some (Char.ofNat n0, 1)
  else if 194 ≤ n0 ∧ n0 < 224 ∧ isCont n1 then some (Char.ofNat v2, 2)
  else if 224 ≤ n0 ∧ n0 < 240 ∧ isCont n1 ∧ isCont n2 ∧ 2048 ≤ v3 ∧ ¬ (55296 ≤ v3 ∧ v3 < 57344) then
    some (Char.ofNat v3, 3)
  else if 240 ≤ n0 ∧ n0 < 245 ∧ isCont n1 ∧ isCont n2 ∧ isCont n3 ∧ 65536 ≤ v4 ∧ v4 < 1114112 then
    some (Char.ofNat v4, 4)
  else none

/-- The runes of a Go string, read front to back as the library does: the
character of each valid encoding, `none` for each byte at which no valid
encoding starts. `skip` counts the bytes of the current encoding still to pass
over. -/
def runesAux : Nat → List UInt8 → List (Option Char)
  | _, [] => []
  | skip + 1, _ :: rest => runesAux skip rest
  | 0, b0 :: rest =>
    match decodeRune b0 rest with
    | some (c, size) => some c :: runesAux (size - 1) rest
    | none => none :: runesAux 0 rest

/-- The runes of a Go string. -/
def runes (g : GoString) : List (Option Char) := runesAux 0 g

/-- The Unicode replacement character U+FFFD (`utf8.RuneError`). -/
def replacementChar : Char := Char.ofNat 65533

/-- The text of a Go string, U+FFFD standing for each invalid byte. -/
def chars (g : GoString) : List Char := (runes g).map (fun r => r.getD replacementChar)

/-- The string with each invalid byte replaced by the encoding of U+FFFD:
what `encoding/json` makes of a string that it writes and reads back. -/
def coerceUTF8 (g : GoString) : GoString := utf8 (chars g)

/-- The string is valid UTF-8. -/
def ValidUTF8 (g : GoString) : Prop := coerceUTF8 g = g

instance decValidUTF8 (g : GoString) : Decidable (ValidUTF8 g) := by
  unfold ValidUTF8; infer_instance

/-! ## Host runtime: responses and the ledger accessor -/

/-- The value of `shim.Success(payload)` or `shim.Error(message)`. -/
inductive Response where
  | Success (payload : GoString)
  | Error (message : GoString)
  deriving DecidableEq, Repr

/-- The ledger accessor of the host (`shim.ChaincodeStubInterface`), as far as
the handlers use it: the committed key-value state, and for each key whether
the host reports an error on a read or on a write of that key. -/
structure Stub where
  /-- committed value of a key; `none` when nothing is stored under it -/
  state : GoString → Option GoString
  /-- error text the host returns from `GetState` of a key, if any -/
  getErr : GoString → Option GoString
  /-- error text the host returns from `PutState` of a key, if any -/
  putErr : GoString → Option GoString

/-- `APIstub.GetState(key)`: the stored bytes (`nil` for an absent key) and
the error. -/
def Stub.GetState (stub : Stub) (key : GoString) : GoString × Option GoString :=
  match stub.getErr key with
  | some e => ([], some e)
  | none => ((stub.state key).getD [], none)

/-- `APIstub.PutState(key, value)`: the stub after the write and the error. A
failed write leaves the state as it was. -/
def Stub.PutState (stub : Stub) (key value : GoString) : Stub × Option GoString :=
  match stub.putErr key with
  | some e => (stub, some e)
  | none => ({ stub with state := fun k => if k = key then some value else stub.state k }, none)

/-- A ledger on which nothing is stored and whose host never fails. -/
def emptyStub : Stub :=
  { state := fun _ => none, getErr := fun _ => none, putErr := fun _ => none }

/-- A ledger on which nothing is stored and whose host fails every write. -/
def failingPutStub : Stub :=
  { state := fun _ => none, getErr := fun _ => none, putErr := fun _ => some (str "PUT_STATE failed") }

/-- A ledger on which nothing is stored and whose host rejects a write under
the empty key and serves every other call. -/
def emptyKeyStub : Stub :=
  { state := fun _ => none
    getErr := fun _ => none
    putErr := fun key => if key = [] then some (str "key must not be an empty string") else none }

/-- `strconv.Itoa` on a length. -/
def Itoa (n : Nat) : GoString := str (toString n)

/-- The text `part` occurs in `message` (as a contiguous substring). -/
def Contains (message part : GoString) : Prop := part <:+: message

instance decContains (message part : GoString) : Decidable (Contains message part) := by
  unfold Contains; infer_instance

/-! ## Record types -/

/-- `type Organisation struct` of Keystore.go. -/
structure Organisation where
  MSPID : GoString
  PublicKey : GoString
  deriving DecidableEq, Repr

/-- `type Chain struct` of TransportChain.go. `Participants` is `none` for
the `nil` slice and `some l` for a slice, possibly empty, with the elements
`l`. -/
structure Chain where
  Id : GoString
  Participants : Option (List GoString)
  deriving DecidableEq, Repr

/-- `type Participant struct` of UBL.go. -/
structure Participant where
  MSPID : GoString
  EncryptedKey : GoString
  deriving DecidableEq, Repr

/-- `type Message struct` of UBL.go. -/
structure Message where
  DocumentID : GoString
  OrganisationID : GoString
  SupplyChainID : GoString
  ContainerID : GoString
  SenderParty : GoString
  RFIDTransportEquipment : GoString
  RFIDTransportHandlingUnit : GoString
  StatusTypeCode : GoString
  EncryptedMessage : GoString
  Participants : List Participant
  Timestamp : GoString
  CarrierAssignedID : GoString
  ShippingOrderID : GoString
  EmptyFullIndicator : GoString
  ContentType : GoString
  ContentTypeSchemeVersion : GoString
  StatusLocationID : GoString
  deriving DecidableEq, Repr

/-- The calls into `encoding/json` made by the three chaincodes.
`UnmarshalChains` is `json.Unmarshal(bytes, &chains)` on a fresh `nil` slice:
it gives the slice after the call together with the error, because
setTransportChain looks at both. -/
structure Json where
  MarshalOrganisation : Organisation → GoString
  MarshalChain : Chain → GoString
  MarshalChains : List Chain → GoString
  UnmarshalChains : GoString → List Chain × Option GoString
  UnmarshalMessage : GoString → Except GoString Message

/-- The chain as `encoding/json` reads it back after writing it: each invalid
byte of its strings replaced by the encoding of U+FFFD. -/
def coerceChain (chain : Chain) : Chain :=
  { Id := coerceUTF8 chain.Id
    Participants := chain.Participants.map (fun parts => parts.map coerceUTF8) }

/-- The facts about `encoding/json` that the theorems on TransportChain use:
a chain array that is written and read back comes back without an error, with
the invalid bytes of its strings replaced by U+FFFD and otherwise unchanged;
the strings of every decoded array are valid UTF-8; and decoding the empty
input leaves the slice empty. -/
def JsonLaws (J : Json) : Prop :=
  (∀ cs, J.UnmarshalChains (J.MarshalChains cs) = (cs.map coerceChain, none)) ∧
    (∀ bytes, ∀ c ∈ (J.UnmarshalChains bytes).1, coerceChain c = c) ∧
    (J.UnmarshalChains []).1 = []

/-! ## strings.Split -/

/-- Pieces of a byte string between occurrences of the byte `sep`. -/
def splitBytes (sep : UInt8) : List UInt8 → List (List UInt8)
  | [] => [[]]
  | b :: rest =>
    if b = sep then [] :: splitBytes sep rest
    else
      match splitBytes sep rest with
      | [] => [[b]]
      | piece :: pieces => (b :: piece) :: pieces

/-- `strings.Split(s, sep)` for a separator of one byte. -/
def Split (s : GoString) (sep : UInt8) : List GoString := splitBytes sep s

/-! ## Keystore.go -/

namespace Keystore

/-- `func (s *SmartContract) addOrganisation` -/
def addOrganisation (J : Json) (stub : Stub) (args : List GoString) : Response × Stub :=
  if args.length ≠ 2 then
    let argsCount := Itoa args.length
    (Response.Error (str "Incorrect number of arguments, expecting 2. Args given:" ++ argsCount),
      stub)
  else
    let organisation : Organisation := { MSPID := args.getD 0 [], PublicKey := args.getD 1 [] }
    let newMessageAsBytes := J.MarshalOrganisation organisation
    let stub1 := (stub.PutState (args.getD 0 []) newMessageAsBytes).1
    (Response.Success newMessageAsBytes, stub1)

/-- `func (s *SmartContract) getOrganisation` -/
def getOrganisation (stub : Stub) (args : List GoString) : Response × Stub :=
  if args.length ≠ 1 then
    let argsCount := Itoa args.length
    (Response.Error (str "Incorrect number of arguments, expecting 1. Args given:" ++ argsCount),
      stub)
  else
    match stub.GetState (args.getD 0 []) with
    | (_, some _) =>
      (Response.Error (str "Message could not be found behind key:" ++ args.getD 0 []), stub)
    | (organisationAsBytes, none) => (Response.Success organisationAsBytes, stub)

/-- `func (s *SmartContract) Invoke` of Keystore.go; `function` and `args` are
what `APIstub.GetFunctionAndParameters()` returns. -/
def Invoke (J : Json) (stub : Stub) (function : GoString) (args : List GoString) :
    Response × Stub :=
  if function = str "addOrganisation" then addOrganisation J stub args
  else if function = str "getOrganisation" then getOrganisation stub args
  else (Response.Error (str "Invalid Smart Contract function name."), stub)

end Keystore

/-! ## TransportChain.go -/

namespace TransportChain

/-- The scan of setTransportChain (lines 109-120): starting from `i = -1`,
the loop stores the index of the first chain whose id is `id` and breaks.
`index` is the position of the head of the list. -/
def scanIndex (id : GoString) : List Chain → Nat → Int
  | [], _ => -1
  | chain :: rest, index => if chain.Id = id then (index : Int) else scanIndex id rest (index + 1)

/-- `func (s *SmartContract) setTransportChain` -/
def setTransportChain (J : Json) (stub : Stub) (args : List GoString) : Response × Stub :=
  if args.length ≠ 2 then
    let argsCount := Itoa args.length
    (Response.Error (str "Incorrect number of arguments, expecting 3. Args given:" ++ argsCount),
      stub)
  else
    let chainsAsBytes := (stub.GetState (str "chains")).1
    let (chains, err) := J.UnmarshalChains chainsAsBytes
    if chains.length ≠ 0 ∧ err ≠ none then (Response.Error (err.getD []), stub)
    else
      let parts := Split (args.getD 1 []) (byte ',')
      let newChain : Chain := { Id := args.getD 0 [], Participants := some parts }
      let i := scanIndex (args.getD 0 []) chains 0
      if i ≠ -1 then
        let chains1 := chains.set i.toNat newChain
        let newChainsAsBytes := J.MarshalChains chains1
        let stub1 := (stub.PutState (str "chains") newChainsAsBytes).1
        let newChainAsBytes := J.MarshalChain newChain
        (Response.Success newChainAsBytes, stub1)
      else
        let chains1 := chains ++ [newChain]
        let newChainsAsBytes := J.MarshalChains chains1
        let stub1 := (stub.PutState (str "chains") newChainsAsBytes).1
        let newChainAsBytes := J.MarshalChain newChain
        (Response.Success newChainAsBytes, stub1)

/-- The scan of getTransportChain (lines 175-182): the first chain whose id is
`id`, at which the loop returns. -/
def scanChain (id : GoString) : List Chain → Option Chain
  | [] => none
  | chain :: rest => if chain.Id = id then some chain else scanChain id rest

/-- `func (s *SmartContract) getTransportChain` -/
def getTransportChain (J : Json) (stub : Stub) (args : List GoString) : Response × Stub :=
  if args.length ≠ 1 then
    let argsCount := Itoa args.length
    (Response.Error (str "Incorrect number of arguments, expecting 1. Args given:" ++ argsCount),
      stub)
  else
    let chainsAsBytes := (stub.GetState (str "chains")).1
    if args.getD 0 [] = str "" then (Response.Success chainsAsBytes, stub)
    else
      let (chains, err) := J.UnmarshalChains chainsAsBytes
      match err with
      | some e => (Response.Error e, stub)
      | none =>
        match scanChain (args.getD 0 []) chains with
        | some chain => (Response.Success (J.MarshalChain chain), stub)
        | none => (Response.Success [], stub)

/-- `func (s *SmartContract) Invoke` of TransportChain.go. -/
def Invoke (J : Json) (stub : Stub) (function : GoString) (args : List GoString) :
    Response × Stub :=
  if function = str "setTransportChain" then setTransportChain J stub args
  else if function = str "getTransportChain" then getTransportChain J stub args
  else (Response.Error (str "Invalid Smart Contract function name."), stub)

/-- The array setTransportChain serialises and writes (lines 123-137) when it
has loaded `chains` and the new record is `newChain`. -/
def mergedChains (chains : List Chain) (newChain : Chain) : List Chain :=
  if scanIndex newChain.Id chains 0 ≠ -1 then
    chains.set (scanIndex newChain.Id chains 0).toNat newChain
  else chains ++ [newChain]

/-- The load step of setTransportChain (lines 88-102) yields the array `cs`
and passes the guard: the value under "chains" decodes to `cs`, without an
error unless `cs` is empty (nothing stored yet). -/
def Loads (J : Json) (stub : Stub) (cs : List Chain) : Prop :=
  (J.UnmarshalChains (stub.GetState (str "chains")).1).1 = cs ∧
    (cs = [] ∨ (J.UnmarshalChains (stub.GetState (str "chains")).1).2 = none)

/-- The array stored under "chains": what the stored value (`nil` when nothing
is stored) decodes to. -/
def storedChains (J : Json) (stub : Stub) : List Chain :=
  (J.UnmarshalChains ((stub.state (str "chains")).getD [])).1

/-- The stub after a sequence of setTransportChain calls. -/
def runSets (J : Json) (stub : Stub) (calls : List (List GoString)) : Stub :=
  calls.foldl (fun s args => (setTransportChain J s args).2) stub

end TransportChain

/-! ## UBL.go -/

namespace UBL

/-- `func (s *SmartContract) addMessage`; `DecodeString` is
`b64.StdEncoding.DecodeString`. The log line is not part of the result. -/
def addMessage (DecodeString : GoString → Except GoString GoString) (J : Json) (stub : Stub)
    (args : List GoString) : Response × Stub :=
  if args.length ≠ 2 then
    let argsCount := Itoa args.length
    (Response.Error (str "Incorrect number of arguments, expecting 3. Args given:" ++ argsCount),
      stub)
  else
    let data := args.getD 0 []
    let key := args.getD 1 []
    match DecodeString data with
    | Except.error err => (Response.Error (str "Error decoding base64:" ++ err), stub)
    | Except.ok decodedBytes =>
      match J.UnmarshalMessage decodedBytes with
      | Except.error err2 =>
        (Response.Error (str "Error unmarshallling! Not valid JSON:" ++ err2), stub)
      | Except.ok _ =>
        let stub1 := (stub.PutState key decodedBytes).1
        (Response.Success (str "Message succesfully saved"), stub1)

/-- `func (s *SmartContract) getMessage` -/
def getMessage (stub : Stub) (args : List GoString) : Response × Stub :=
  if args.length ≠ 1 then
    let argsCount := Itoa args.length
    (Response.Error (str "Incorrect number of arguments, expecting 1. Args given:" ++ argsCount),
      stub)
  else
    match stub.GetState (args.getD 0 []) with
    | (_, some _) =>
      (Response.Error (str "Message could not be found behind key:" ++ args.getD 0 []), stub)
    | (messageAsBytes, none) => (Response.Success messageAsBytes, stub)

/-- `func (s *SmartContract) Invoke` of UBL.go. The printed line is not part
of the result. -/
def Invoke (DecodeString : GoString → Except GoString GoString) (J : Json) (stub : Stub)
    (function : GoString) (args : List GoString) : Response × Stub :=
  if function = str "addMessage" then addMessage DecodeString J stub args
  else if function = str "getMessage" then getMessage stub args
  else (Response.Error (str "Invalid Smart Contract function name:" ++ function), stub)

end UBL

/-! ## encoding/json and encoding/base64: an executable instance

`GoJson` models the library on the record types of this repository. It writes
what `json.Marshal` writes for them: an invalid byte of a string as the escape
of U+FFFD, a `nil` slice as `null`, an empty slice that is not `nil` as `[]`.
It reads JSON with the library's rules for these types: an invalid byte inside
a string read as U+FFFD, a surrogate pair of escapes read as one character,
keys matched without regard to case, unknown keys skipped whatever their value,
`null` leaving a string as it is and making a slice `nil`, the first type error
kept while decoding goes on. A text that is not JSON gives an error and no
partial result.

Limits of the instance. The error text is exact for the empty input
(`unexpected end of JSON input`); for other errors only the kind of the text
is kept. The control characters U+0008 and U+000C are written as `\u0008` and
`\u000c`, as the library did when the repository was written; later versions
write `\b` and `\f`. An object that names the participant array twice is read
as if the second array were decoded into fresh strings, while the library
decodes it over the elements of the first. None of the theorems below depends
on these points: they are stated for any `Json` with `JsonLaws`, and the
instance is evaluated on inputs where it agrees with the library.
-/

namespace GoJson

/-- Lower-case hexadecimal digit of a number below 16. -/
def hexDigit (n : Nat) : Char := "0123456789abcdef".data.getD n '0'

/-- Value of a hexadecimal digit. -/
def hexVal (c : Char) : Option Nat :=
  if 48 ≤ c.toNat ∧ c.toNat ≤ 57 then some (c.toNat - 48)
  else if 97 ≤ c.toNat ∧ c.toNat ≤ 102 then some (c.toNat - 87)
  else if 65 ≤ c.toNat ∧ c.toNat ≤ 70 then some (c.toNat - 55)
  else none

/-- Text `json.Marshal` writes for one character of a string (HTML escaping
on, as by default): the short escapes it knows, a `\u00XX` escape for other
control characters and for `<`, `>`, `&`, escapes for U+2028 and U+2029, and
the character itself otherwise. -/
def escapeChar (c : Char) : List Char :=
  if c = '"' then ['\\', '"']
  else if c = '\\' then ['\\', '\\']
  else if c = '\n' then ['\\', 'n']
  else if c = '\r' then ['\\', 'r']
  else if c = '\t' then ['\\', 't']
  else if c.toNat < 32 ∨ c = '<' ∨ c = '>' ∨ c = '&' then
    ['\\', 'u', '0', '0', hexDigit (c.toNat / 16), hexDigit (c.toNat % 16)]
  else if c.toNat = 0x2028 then ['\\', 'u', '2', '0', '2', '8']
  else if c.toNat = 0x2029 then ['\\', 'u', '2', '0', '2', '9']
  else [c]

/-- Text `json.Marshal` writes for one rune of a string: the escape `\ufffd`
for an invalid byte. -/
def escapeRune (r : Option Char) : List Char :=
  match r with
  | some c => escapeChar c
  | none => ['\\', 'u', 'f', 'f', 'f', 'd']

/-- Character named by a one-letter escape. -/
def unescape (e : Char) : Option Char :=
  if e = '"' then some '"'
  else if e = '\\' then some '\\'
  else if e = '/' then some '/'
  else if e = 'b' then some (Char.ofNat 8)
  else if e = 'f' then some (Char.ofNat 12)
  else if e = 'n' then some '\n'
  else if e = 'r' then some '\r'
  else if e = 't' then some '\t'
  else none

/-- The value is a UTF-16 high surrogate. -/
def isHigh (v : Nat) : Prop := 55296 ≤ v ∧ v < 56320

/-- The value is a UTF-16 low surrogate. -/
def isLow (v : Nat) : Prop := 56320 ≤ v ∧ v < 57344

instance decIsHigh (v : Nat) : Decidable (isHigh v) := by
  unfold isHigh; infer_instance

instance decIsLow (v : Nat) : Decidable (isLow v) := by
  unfold isLow; infer_instance

/-- The character of a surrogate pair. -/
def pairChar (hi lo : Nat) : Char := Char.ofNat (65536 + (hi - 55296) * 1024 + (lo - 56320))

/-- State of the string reader: in plain text; after a backslash; inside a
`\u` escape with `left` more hex digits to read after the next one; after the
escape of the high surrogate `hi`; after that escape and a backslash; inside
the `\u` escape that follows the escape of `hi`. -/
inductive StringMode where
  | plain
  | esc
  | hex (left : Nat) (value : Nat)
  | high (hi : Nat)
  | highEsc (hi : Nat)
  | low (hi : Nat) (left : Nat) (value : Nat)

/-- Reads a JSON string whose opening quote has been consumed: the decoded
characters (`acc` holds those read so far, last first) and the text after the
closing quote. A surrogate escape that is not half of a pair reads as
U+FFFD. -/
def readString : StringMode → List Char → List Char → Option (List Char × List Char)
  | _, _, [] => none
  | StringMode.plain, acc, c :: rest =>
    if c = '"' then some (acc.reverse, rest)
    else if c = '\\' then readString StringMode.esc acc rest
    else if c.toNat < 32 then none
    else readString StringMode.plain (c :: acc) rest
  | StringMode.esc, acc, e :: rest =>
    if e = 'u' then readString (StringMode.hex 3 0) acc rest
    else
      match unescape e with
      | some ch => readString StringMode.plain (ch :: acc) rest
      | none => none
  | StringMode.hex left value, acc, h :: rest =>
    match hexVal h with
    | none => none
    | some d =>
      match left with
      | 0 =>
        if isHigh (value * 16 + d) then readString (StringMode.high (value * 16 + d)) acc rest
        else if isLow (value * 16 + d) then readString StringMode.plain (replacementChar :: acc) rest
        else readString StringMode.plain (Char.ofNat (value * 16 + d) :: acc) rest
      | k + 1 => readString (StringMode.hex k (value * 16 + d)) acc rest
  | StringMode.high hi, acc, c :: rest =>
    if c = '"' then some ((replacementChar :: acc).reverse, rest)
    else if c = '\\' then readString (StringMode.highEsc hi) acc rest
    else if c.toNat < 32 then none
    else readString StringMode.plain (c :: replacementChar :: acc) rest
  | StringMode.highEsc hi, acc, e :: rest =>
    if e = 'u' then readString (StringMode.low hi 3 0) acc rest
    else
      match unescape e with
      | some ch => readString StringMode.plain (ch :: replacementChar :: acc) rest
      | none => none
  | StringMode.low hi left value, acc, h :: rest =>
    match hexVal h with
    | none => none
    | some d =>
      match left with
      | 0 =>
        if isLow (value * 16 + d) then
          readString StringMode.plain (pairChar hi (value * 16 + d) :: acc) rest
        else if isHigh (value * 16 + d) then
          readString (StringMode.high (value * 16 + d)) (replacementChar :: acc) rest
        else
          readString StringMode.plain (Char.ofNat (value * 16 + d) :: replacementChar :: acc) rest
      | k + 1 => readString (StringMode.low hi k (value * 16 + d)) acc rest

/-- A parsed JSON text. A number keeps its text. -/
inductive JV where
  | null
  | bool (b : Bool)
  | num (text : List Char)
  | str (s : List Char)
  | arr (items : List JV)
  | obj (members : List (List Char × JV))

/-- JSON whitespace. -/
def isWs (c : Char) : Bool := c = ' ' || c = '\n' || c = '\r' || c = '\t'

/-- Drops leading whitespace. -/
def skipWs : List Char → List Char
  | [] => []
  | c :: rest => if isWs c then skipWs rest else c :: rest

/-- A decimal digit. -/
def isDigit (c : Char) : Bool := decide (48 ≤ c.toNat ∧ c.toNat ≤ 57)

/-- The digits at the front of a text and the rest. -/
def takeDigits : List Char → List Char × List Char
  | [] => ([], [])
  | c :: rest => if isDigit c then ((c :: (takeDigits rest).1), (takeDigits rest).2) else ([], c :: rest)

/-- The exponent part of a number at the front of a text, if there is one. -/
def readExponent (l : List Char) : Option (List Char × List Char) :=
  match l with
  | e :: rest =>
    if e = 'e' ∨ e = 'E' then
      match rest with
      | s :: rest1 =>
        if s = '+' ∨ s = '-' then
          if (takeDigits rest1).1 = [] then none
          else some (e :: s :: (takeDigits rest1).1, (takeDigits rest1).2)
        else if (takeDigits rest).1 = [] then none
        else some (e :: (takeDigits rest).1, (takeDigits rest).2)
      | [] => none
    else some ([], l)
  | [] => some ([], l)

/-- The fraction part of a number at the front of a text, if there is one. -/
def readFraction (l : List Char) : Option (List Char × List Char) :=
  match l with
  | p :: rest =>
    if p = '.' then
      if (takeDigits rest).1 = [] then none
      else some (p :: (takeDigits rest).1, (takeDigits rest).2)
    else some ([], l)
  | [] => some ([], l)

/-- The integer part of a number, after the sign: `0`, or a digit other than
`0` and more digits. -/
def readInteger (l : List Char) : Option (List Char × List Char) :=
  match l with
  | d :: rest =>
    if d = '0' then some ([d], rest)
    else if isDigit d then some (d :: (takeDigits rest).1, (takeDigits rest).2)
    else none
  | [] => none

/-- A JSON number at the front of a text: its text and the rest. -/
def readNumber (l : List Char) : Option (List Char × List Char) :=
  let sign := if l.head? = some '-' then ['-'] else []
  match readInteger (l.drop sign.length) with
  | none => none
  | some (int, rest) =>
    match readFraction rest with
    | none => none
    | some (frac, rest1) =>
      match readExponent rest1 with
      | none => none
      | some (exp, rest2) => some (sign ++ int ++ frac ++ exp, rest2)

mutual
/-- Parses one JSON value off the front of the text. `fuel` bounds the number
of nested calls; `parseJson` passes the length of the text, which is enough for
every text this instance writes (`parseValue_encList` below). -/
def parseValue : Nat → List Char → Option (JV × List Char)
  | 0, _ => none
  | fuel + 1, l =>
    match skipWs l with
    | [] => none
    | c :: rest =>
      if c = '"' then
        match readString StringMode.plain [] rest with
        | some (s, r) => some (JV.str s, r)
        | none => none
      else if c = '[' then
        match skipWs rest with
        | [] => none
        | c1 :: rest1 =>
          if c1 = ']' then some (JV.arr [], rest1)
          else
            match parseElems fuel (c1 :: rest1) with
            | some (vs, r) => some (JV.arr vs, r)
            | none => none
      else if c = '\x7b' then
        match skipWs rest with
        | [] => none
        | c1 :: rest1 =>
          if c1 = '\x7d' then some (JV.obj [], rest1)
          else
            match parseMembers fuel (c1 :: rest1) with
            | some (ms, r) => some (JV.obj ms, r)
            | none => none
      else if c = 'n' ∧ rest.take 3 = ['u', 'l', 'l'] then some (JV.null, rest.drop 3)
      else if c = 't' ∧ rest.take 3 = ['r', 'u', 'e'] then some (JV.bool true, rest.drop 3)
      else if c = 'f' ∧ rest.take 4 = ['a', 'l', 's', 'e'] then some (JV.bool false, rest.drop 4)
      else
        match readNumber (c :: rest) with
        | some (text, r) => some (JV.num text, r)
        | none => none
/-- Parses the elements of a non-empty array up to and including `]`. -/
def parseElems : Nat → List Char → Option (List JV × List Char)
  | 0, _ => none
  | fuel + 1, l =>
    match parseValue fuel l with
    | none => none
    | some (v, rest) =>
      match skipWs rest with
      | [] => none
      | c :: rest1 =>
        if c = ',' then
          match parseElems fuel rest1 with
          | some (vs, r) => some (v :: vs, r)
          | none => none
        else if c = ']' then some ([v], rest1)
        else none
/-- Parses the members of a non-empty object up to and including the closing
brace. -/
def parseMembers : Nat → List Char → Option (List (List Char × JV) × List Char)
  | 0, _ => none
  | fuel + 1, l =>
    match skipWs l with
    | [] => none
    | c :: rest =>
      if c = '"' then
        match readString StringMode.plain [] rest with
        | none => none
        | some (k, rest1) =>
          match skipWs rest1 with
          | [] => none
          | c1 :: rest2 =>
            if c1 = ':' then
              match parseValue fuel rest2 with
              | none => none
              | some (v, rest3) =>
                match skipWs rest3 with
                | [] => none
                | c2 :: rest4 =>
                  if c2 = ',' then
                    match parseMembers fuel rest4 with
                    | some (ms, r) => some ((k, v) :: ms, r)
                    | none => none
                  else if c2 = '\x7d' then some ([(k, v)], rest4)
                  else none
            else none
      else none
end

/-- Parses a whole text as one JSON value. -/
def parseJson (l : List Char) : Option JV :=
  match parseValue l.length l with
  | some (v, rest) => if skipWs rest = [] then some v else none
  | none => none

/-- The decoder keeps the first error and goes on. -/
def firstError (a b : Option String) : Option String :=
  match a with
  | some e => some e
  | none => b

/-- Name of the kind of a JSON value in an error text. -/
def kindOf : JV → String
  | JV.null => "null"
  | JV.bool _ => "bool"
  | JV.num _ => "number"
  | JV.str _ => "string"
  | JV.arr _ => "array"
  | JV.obj _ => "object"

/-- Error for a JSON value of the wrong kind. -/
def typeError (v : JV) (goType : String) : Option String :=
  some ("json: cannot unmarshal " ++ kindOf v ++ " into Go value of type " ++ goType)

/-- Decodes a value into a `string` that holds `old`. -/
def stringInto (v : JV) (old : GoString) : GoString × Option String :=
  match v with
  | JV.str s => (utf8 s, none)
  | JV.null => (old, none)
  | _ => (old, typeError v "string")

/-- Decodes the elements of an array into strings. -/
def stringItems : List JV → List GoString × Option String
  | [] => ([], none)
  | v :: vs => ((stringInto v []).1 :: (stringItems vs).1, firstError (stringInto v []).2 (stringItems vs).2)

/-- Decodes a value into a `[]string` that holds `old`: an array gives a
slice that is not `nil`, also when it is empty; `null` gives the `nil`
slice. -/
def stringsInto (v : JV) (old : Option (List GoString)) :
    Option (List GoString) × Option String :=
  match v with
  | JV.arr items => (some (stringItems items).1, (stringItems items).2)
  | JV.null => (none, none)
  | _ => (old, typeError v "[]string")

/-- Case folding of one character of an object key: upper-case ASCII letters
to lower case, and the two characters outside ASCII that fold to an ASCII
letter, U+017F to `s` and U+212A to `k`. -/
def foldChar (c : Char) : Char :=
  if c.toNat = 0x17F then 's' else if c.toNat = 0x212A then 'k' else c.toLower

/-- Object keys are matched to field names without regard to case. -/
def fieldName (k : List Char) : List Char := k.map foldChar

/-- Decodes the members of an object into a `Chain`; unknown keys are skipped. -/
def chainMembers : List (List Char × JV) → Chain → Chain × Option String
  | [], chain => (chain, none)
  | (k, v) :: ms, chain =>
    if fieldName k = "id".data then
      let r := chainMembers ms { chain with Id := (stringInto v chain.Id).1 }
      (r.1, firstError (stringInto v chain.Id).2 r.2)
    else if fieldName k = "participants".data then
      let r := chainMembers ms { chain with Participants := (stringsInto v chain.Participants).1 }
      (r.1, firstError (stringsInto v chain.Participants).2 r.2)
    else chainMembers ms chain

/-- Decodes a value into a zero `Chain`. -/
def chainInto (v : JV) : Chain × Option String :=
  match v with
  | JV.obj ms => chainMembers ms { Id := [], Participants := none }
  | JV.null => ({ Id := [], Participants := none }, none)
  | _ => ({ Id := [], Participants := none }, typeError v "main.Chain")

/-- Decodes the elements of an array into chains. -/
def chainItems : List JV → List Chain × Option String
  | [] => ([], none)
  | v :: vs => ((chainInto v).1 :: (chainItems vs).1, firstError (chainInto v).2 (chainItems vs).2)

/-- Decodes a value into a `nil` `[]Chain`. -/
def chainsInto (v : JV) : List Chain × Option String :=
  match v with
  | JV.arr items => chainItems items
  | JV.null => ([], none)
  | _ => ([], typeError v "[]main.Chain")

/-- Error text for a text that is not JSON. -/
def parseErrorText (l : List Char) : String :=
  if skipWs l = [] then "unexpected end of JSON input" else "invalid character in JSON input"

/-- `json.Unmarshal(bytes, &chains)` with `chains` a `nil` `[]Chain`. -/
def UnmarshalChains (bytes : GoString) : List Chain × Option GoString :=
  match parseJson (chars bytes) with
  | none => ([], some (Smartlog.str (parseErrorText (chars bytes))))
  | some v => ((chainsInto v).1, (chainsInto v).2.map Smartlog.str)

/-- Text of a JSON string. -/
def encString (g : GoString) : List Char := '"' :: ((runes g).flatMap escapeRune ++ ['"'])

/-- Elements of an array after the first, each after a comma, and the closing
bracket. -/
def encTail {α : Type} (enc : α → List Char) : List α → List Char
  | [] => [']']
  | x :: xs => ',' :: (enc x ++ encTail enc xs)

/-- Text of a slice that is `nil` when it is empty: `null` for the empty
one. -/
def encList {α : Type} (enc : α → List Char) : List α → List Char
  | [] => ['n', 'u', 'l', 'l']
  | x :: xs => '[' :: (enc x ++ encTail enc xs)

/-- Text of a slice: `null` for the `nil` one, `[]` for the empty one that is
not `nil`. -/
def encSlice {α : Type} (enc : α → List Char) : Option (List α) → List Char
  | none => ['n', 'u', 'l', 'l']
  | some [] => ['[', ']']
  | some (x :: xs) => '[' :: (enc x ++ encTail enc xs)

/-- Text of a `Chain`. -/
def encChain (chain : Chain) : List Char :=
  "\x7b\"id\":".data ++ (encString chain.Id ++ (",\"participants\":".data ++
    (encSlice encString chain.Participants ++ ['\x7d'])))

/-- `json.Marshal(chain)` -/
def MarshalChain (chain : Chain) : GoString := utf8 (encChain chain)

/-- `json.Marshal(chains)`. The chaincode calls it on arrays with at least one
element only; the empty array is taken to be the `nil` slice. -/
def MarshalChains (chains : List Chain) : GoString := utf8 (encList encChain chains)

/-- JSON value that the text `encList enc xs` denotes, when `toJ` gives the
value of an element. -/
def listJ {α : Type} (toJ : α → JV) : List α → JV
  | [] => JV.null
  | x :: xs => JV.arr ((x :: xs).map toJ)

/-- JSON value that the text `encSlice enc xs` denotes. -/
def sliceJ {α : Type} (toJ : α → JV) : Option (List α) → JV
  | none => JV.null
  | some xs => JV.arr (xs.map toJ)

/-- JSON value that the text `encString g` denotes. -/
def stringJ (g : GoString) : JV := JV.str (chars g)

/-- JSON value that the text `encChain chain` denotes. -/
def chainJ (chain : Chain) : JV :=
  JV.obj [("id".data, stringJ chain.Id), ("participants".data, sliceJ stringJ chain.Participants)]

/-- `json.Marshal(organisation)` -/
def MarshalOrganisation (organisation : Organisation) : GoString :=
  utf8 ("\x7b\"mspID\":".data ++ (encString organisation.MSPID ++ (",\"publicKey\":".data ++
    (encString organisation.PublicKey ++ ['\x7d']))))

/-- Decodes the members of an object into a `Participant`. -/
def participantMembers : List (List Char × JV) → Participant → Participant × Option String
  | [], participant => (participant, none)
  | (k, v) :: ms, participant =>
    if fieldName k = "mspid".data then
      let r := participantMembers ms { participant with MSPID := (stringInto v participant.MSPID).1 }
      (r.1, firstError (stringInto v participant.MSPID).2 r.2)
    else if fieldName k = "enryptedkey".data then
      let r := participantMembers ms
        { participant with EncryptedKey := (stringInto v participant.EncryptedKey).1 }
      (r.1, firstError (stringInto v participant.EncryptedKey).2 r.2)
    else participantMembers ms participant

/-- Decodes a value into a zero `Participant`. -/
def participantInto (v : JV) : Participant × Option String :=
  match v with
  | JV.obj ms => participantMembers ms { MSPID := [], EncryptedKey := [] }
  | JV.null => ({ MSPID := [], EncryptedKey := [] }, none)
  | _ => ({ MSPID := [], EncryptedKey := [] }, typeError v "main.Participant")

/-- Decodes the elements of an array into participants. -/
def participantItems : List JV → List Participant × Option String
  | [] => ([], none)
  | v :: vs =>
    ((participantInto v).1 :: (participantItems vs).1,
      firstError (participantInto v).2 (participantItems vs).2)

/-- Decodes a value into a `[]Participant` that holds `old`. -/
def participantsInto (v : JV) (old : List Participant) : List Participant × Option String :=
  match v with
  | JV.arr items => participantItems items
  | JV.null => ([], none)
  | _ => (old, typeError v "[]main.Participant")

/-- The message with the string field of the given (lower-case) name set to
`s`; `none` when `Message` has no string field of that name. -/
def setStringField (m : Message) (key : List Char) (s : GoString) : Option Message :=
  if key = "documentid".data then some { m with DocumentID := s }
  else if key = "organisationid".data then some { m with OrganisationID := s }
  else if key = "supplychainid".data then some { m with SupplyChainID := s }
  else if key = "containerid".data then some { m with ContainerID := s }
  else if key = "senderparty".data then some { m with SenderParty := s }
  else if key = "rfidtransportequipment".data then some { m with RFIDTransportEquipment := s }
  else if key = "rfidtransporthandlingunit".data then some { m with RFIDTransportHandlingUnit := s }
  else if key = "statustypecode".data then some { m with StatusTypeCode := s }
  else if key = "encryptedmessage".data then some { m with EncryptedMessage := s }
  else if key = "timestamp".data then some { m with Timestamp := s }
  else if key = "carrierassignedid".data then some { m with CarrierAssignedID := s }
  else if key = "shippingorderid".data then some { m with ShippingOrderID := s }
  else if key = "emptyfullindicator".data then some { m with EmptyFullIndicator := s }
  else if key = "contenttype".data then some { m with ContentType := s }
  else if key = "contenttypeschemeversion".data then some { m with ContentTypeSchemeVersion := s }
  else if key = "statuslocationid".data then some { m with StatusLocationID := s }
  else none

/-- Decodes the members of an object into a `Message`; unknown keys are
skipped. -/
def messageMembers : List (List Char × JV) → Message → Message × Option String
  | [], m => (m, none)
  | (k, v) :: ms, m =>
    if fieldName k = "participants".data then
      let r := messageMembers ms { m with Participants := (participantsInto v m.Participants).1 }
      (r.1, firstError (participantsInto v m.Participants).2 r.2)
    else
      match setStringField m (fieldName k) [] with
      | none => messageMembers ms m
      | some _ =>
        match v with
        | JV.str s => messageMembers ms ((setStringField m (fieldName k) (utf8 s)).getD m)
        | JV.null => messageMembers ms m
        | _ => ((messageMembers ms m).1, firstError (typeError v "string") (messageMembers ms m).2)

/-- The zero value of `Message`. -/
def zeroMessage : Message :=
  { DocumentID := [], OrganisationID := [], SupplyChainID := [], ContainerID := [],
    SenderParty := [], RFIDTransportEquipment := [], RFIDTransportHandlingUnit := [],
    StatusTypeCode := [], EncryptedMessage := [], Participants := [], Timestamp := [],
    CarrierAssignedID := [], ShippingOrderID := [], EmptyFullIndicator := [], ContentType := [],
    ContentTypeSchemeVersion := [], StatusLocationID := [] }

/-- Decodes a value into a zero `Message`. -/
def messageInto (v : JV) : Message × Option String :=
  match v with
  | JV.obj ms => messageMembers ms zeroMessage
  | JV.null => (zeroMessage, none)
  | _ => (zeroMessage, typeError v "main.Message")

/-- `json.Unmarshal(decodedBytes, &message)` with `message` a zero `Message`:
the decoded message, or the error. -/
def UnmarshalMessage (bytes : GoString) : Except GoString Message :=
  match parseJson (chars bytes) with
  | none => Except.error (Smartlog.str (parseErrorText (chars bytes)))
  | some v =>
    match messageInto v with
    | (m, none) => Except.ok m
    | (_, some e) => Except.error (Smartlog.str e)

end GoJson

/-- The executable instance of the `encoding/json` calls. -/
def goJson : Json :=
  { MarshalOrganisation := GoJson.MarshalOrganisation
    MarshalChain := GoJson.MarshalChain
    MarshalChains := GoJson.MarshalChains
    UnmarshalChains := GoJson.UnmarshalChains
    UnmarshalMessage := GoJson.UnmarshalMessage }

/-- Value of a character of the standard base64 alphabet. -/
def b64Val (b : UInt8) : Option Nat :=
  if 65 ≤ b.toNat ∧ b.toNat ≤ 90 then some (b.toNat - 65)
  else if 97 ≤ b.toNat ∧ b.toNat ≤ 122 then some (b.toNat - 71)
  else if 48 ≤ b.toNat ∧ b.toNat ≤ 57 then some (b.toNat + 4)
  else if b = byte '+' then some 62
  else if b = byte '/' then some 63
  else none

/-- Bytes of a base64 text, four characters at a time; padding only in the
last group. -/
def b64Bytes : List UInt8 → Option (List UInt8)
  | [] => some []
  | [c1, c2, c3, c4] =>
    match b64Val c1, b64Val c2 with
    | some v1, some v2 =>
      if c3 = byte '=' ∧ c4 = byte '=' then some [UInt8.ofNat ((v1 * 4 + v2 / 16) % 256)]
      else
        match b64Val c3 with
        | none => none
        | some v3 =>
          if c4 = byte '=' then
            some [UInt8.ofNat ((v1 * 4 + v2 / 16) % 256), UInt8.ofNat ((v2 * 16 + v3 / 4) % 256)]
          else
            match b64Val c4 with
            | none => none
            | some v4 =>
              some [UInt8.ofNat ((v1 * 4 + v2 / 16) % 256), UInt8.ofNat ((v2 * 16 + v3 / 4) % 256),
                UInt8.ofNat ((v3 * 64 + v4) % 256)]
    | _, _ => none
  | c1 :: c2 :: c3 :: c4 :: rest =>
    match b64Val c1, b64Val c2, b64Val c3, b64Val c4, b64Bytes rest with
    | some v1, some v2, some v3, some v4, some bs =>
      some (UInt8.ofNat ((v1 * 4 + v2 / 16) % 256) :: UInt8.ofNat ((v2 * 16 + v3 / 4) % 256) ::
        UInt8.ofNat ((v3 * 64 + v4) % 256) :: bs)
    | _, _, _, _, _ => none
  | _ => none

/-- `b64.StdEncoding.DecodeString(s)`: line breaks in the input are skipped,
the padding is required. Only the kind of the error text is kept. -/
def StdEncoding_DecodeString (s : GoString) : Except GoString GoString :=
  match b64Bytes (s.filter (fun b => b ≠ byte '\r' ∧ b ≠ byte '\n')) with
  | none => Except.error (str "illegal base64 data")
  | some bytes => Except.ok bytes

/-- A ledger whose "chains" value is the array with the one chain "B" with the
participant "z", and whose host never fails. -/
def oneChainStub : Stub :=
  { state := fun k =>
      if k = str "chains" then some (str "[\x7b\"id\":\"B\",\"participants\":[\"z\"]\x7d]") else none
    getErr := fun _ => none
    putErr := fun _ => none }

/-! ## Lemmas on Go strings -/

theorem toNat_ofNat_lt (n : Nat) (h : n < 256) : (UInt8.ofNat n).toNat = n := by
  simp [UInt8.toNat, UInt8.ofNat, Fin.ofNat, Nat.mod_eq_of_lt h]

theorem char_range (c : Char) : c.toNat < 55296 ∨ (57343 < c.toNat ∧ c.toNat < 1114112) := by
  have h := c.valid
  simp only [UInt32.isValidChar, Nat.isValidChar] at h
  exact h

theorem decodeRune_one (b0 : UInt8) (rest : List UInt8) (h : b0.toNat < 128) :
    decodeRune b0 rest = some (Char.ofNat b0.toNat, 1) := by
  unfold decodeRune
  simp only [h, if_true]

theorem decodeRune_two (b0 b1 : UInt8) (rest : List UInt8)
    (h0 : 194 ≤ b0.toNat ∧ b0.toNat < 224) (h1 : isCont b1.toNat) :
    decodeRune b0 (b1 :: rest)
      = some (Char.ofNat ((b0.toNat - 192) * 64 + (b1.toNat - 128)), 2) := by
  unfold decodeRune
  simp only [List.getD_cons_zero]
  rw [if_neg (by omega), if_pos ⟨h0.1, h0.2, h1⟩]

theorem decodeRune_three (b0 b1 b2 : UInt8) (rest : List UInt8)
    (h0 : 224 ≤ b0.toNat ∧ b0.toNat < 240) (h1 : isCont b1.toNat) (h2 : isCont b2.toNat)
    (hv : 2048 ≤ (b0.toNat - 224) * 4096 + (b1.toNat - 128) * 64 + (b2.toNat - 128))
    (hs : ¬ (55296 ≤ (b0.toNat - 224) * 4096 + (b1.toNat - 128) * 64 + (b2.toNat - 128) ∧
      (b0.toNat - 224) * 4096 + (b1.toNat - 128) * 64 + (b2.toNat - 128) < 57344)) :
    decodeRune b0 (b1 :: b2 :: rest)
      = some (Char.ofNat ((b0.toNat - 224) * 4096 + (b1.toNat - 128) * 64 + (b2.toNat - 128)), 3) := by
  unfold decodeRune
  simp only [List.getD_cons_zero, List.getD_cons_succ]
  rw [if_neg (by omega), if_neg (by omega), if_pos ⟨h0.1, h0.2, h1, h2, hv, hs⟩]

theorem decodeRune_four (b0 b1 b2 b3 : UInt8) (rest : List UInt8)
    (h0 : 240 ≤ b0.toNat ∧ b0.toNat < 245) (h1 : isCont b1.toNat) (h2 : isCont b2.toNat)
    (h3 : isCont b3.toNat)
    (hv : 65536 ≤ (b0.toNat - 240) * 262144 + (b1.toNat - 128) * 4096 + (b2.toNat - 128) * 64
      + (b3.toNat - 128))
    (hs : (b0.toNat - 240) * 262144 + (b1.toNat - 128) * 4096 + (b2.toNat - 128) * 64
      + (b3.toNat - 128) < 1114112) :
    decodeRune b0 (b1 :: b2 :: b3 :: rest)
      = some (Char.ofNat ((b0.toNat - 240) * 262144 + (b1.toNat - 128) * 4096
          + (b2.toNat - 128) * 64 + (b3.toNat - 128)), 4) := by
  unfold decodeRune
  simp only [List.getD_cons_zero, List.getD_cons_succ]
  rw [if_neg (by omega), if_neg (by omega), if_neg (by omega), if_pos ⟨h0.1, h0.2, h1, h2, h3, hv, hs⟩]

theorem runesAux_skip (tl rest : List UInt8) : runesAux tl.length (tl ++ rest) = runesAux 0 rest := by
  induction tl with
  | nil => rfl
  | cons b tl ih => simpa [runesAux] using ih

theorem decodeRune_encodeRune (c : Char) (rest : List UInt8) :
    ∃ b0 tl, encodeRune c = b0 :: tl ∧ decodeRune b0 (tl ++ rest) = some (c, tl.length + 1) := by
  have hr := char_range c
  unfold encodeRune
  split_ifs with h1 h2 h3
  · refine ⟨_, [], rfl, ?_⟩
    have e0 := toNat_ofNat_lt c.toNat (by omega)
    rw [decodeRune_one _ _ (by omega), e0, Char.ofNat_toNat]
    rfl
  · refine ⟨_, [_], rfl, ?_⟩
    have e0 := toNat_ofNat_lt (192 + c.toNat / 64) (by omega)
    have e1 := toNat_ofNat_lt (128 + c.toNat % 64) (by omega)
    have hv : (192 + c.toNat / 64 - 192) * 64 + (128 + c.toNat % 64 - 128) = c.toNat := by omega
    rw [List.singleton_append, decodeRune_two _ _ _ (by omega) (by unfold isCont; omega), e0, e1, hv,
      Char.ofNat_toNat]
    rfl
  · refine ⟨_, [_, _], rfl, ?_⟩
    have e0 := toNat_ofNat_lt (224 + c.toNat / 4096) (by omega)
    have e1 := toNat_ofNat_lt (128 + c.toNat / 64 % 64) (by omega)
    have e2 := toNat_ofNat_lt (128 + c.toNat % 64) (by omega)
    have hv : (224 + c.toNat / 4096 - 224) * 4096 + (128 + c.toNat / 64 % 64 - 128) * 64
        + (128 + c.toNat % 64 - 128) = c.toNat := by omega
    have h := decodeRune_three (UInt8.ofNat (224 + c.toNat / 4096))
      (UInt8.ofNat (128 + c.toNat / 64 % 64)) (UInt8.ofNat (128 + c.toNat % 64)) rest
      (by omega) (by unfold isCont; omega) (by unfold isCont; omega)
      (by rw [e0, e1, e2, hv]; omega) (by rw [e0, e1, e2, hv]; omega)
    rw [e0, e1, e2, hv, Char.ofNat_toNat] at h
    exact h
  · refine ⟨_, [_, _, _], rfl, ?_⟩
    have e0 := toNat_ofNat_lt (240 + c.toNat / 262144) (by omega)
    have e1 := toNat_ofNat_lt (128 + c.toNat / 4096 % 64) (by omega)
    have e2 := toNat_ofNat_lt (128 + c.toNat / 64 % 64) (by omega)
    have e3 := toNat_ofNat_lt (128 + c.toNat % 64) (by omega)
    have hv : (240 + c.toNat / 262144 - 240) * 262144 + (128 + c.toNat / 4096 % 64 - 128) * 4096
        + (128 + c.toNat / 64 % 64 - 128) * 64 + (128 + c.toNat % 64 - 128) = c.toNat := by omega
    have h := decodeRune_four (UInt8.ofNat (240 + c.toNat / 262144))
      (UInt8.ofNat (128 + c.toNat / 4096 % 64)) (UInt8.ofNat (128 + c.toNat / 64 % 64))
      (UInt8.ofNat (128 + c.toNat % 64)) rest
      (by omega) (by unfold isCont; omega) (by unfold isCont; omega) (by unfold isCont; omega)
      (by rw [e0, e1, e2, e3, hv]; omega) (by rw [e0, e1, e2, e3, hv]; omega)
    rw [e0, e1, e2, e3, hv, Char.ofNat_toNat] at h
    exact h

theorem runesAux_encodeRune (c : Char) (rest : List UInt8) :
    runesAux 0 (encodeRune c ++ rest) = some c :: runesAux 0 rest := by
  obtain ⟨b0, tl, he, hd⟩ := decodeRune_encodeRune c rest
  rw [he, List.cons_append, runesAux, hd]
  simp only [Nat.add_sub_cancel]
  rw [runesAux_skip]

theorem runes_utf8 (l : List Char) (rest : List UInt8) :
    runesAux 0 (utf8 l ++ rest) = l.map some ++ runesAux 0 rest := by
  induction l with
  | nil => rfl
  | cons c l ih =>
    simp only [utf8, List.flatMap_cons, List.append_assoc, List.map_cons, List.cons_append] at ih ⊢
    rw [runesAux_encodeRune, ih]

theorem chars_utf8 (l : List Char) : chars (utf8 l) = l := by
  have h := runes_utf8 l []
  simp only [List.append_nil] at h
  simp [chars, runes, h, runesAux, Function.comp_def]

theorem coerceUTF8_utf8 (l : List Char) : coerceUTF8 (utf8 l) = utf8 l := by
  rw [coerceUTF8, chars_utf8]

theorem coerceUTF8_idem (g : GoString) : coerceUTF8 (coerceUTF8 g) = coerceUTF8 g :=
  coerceUTF8_utf8 (chars g)

theorem validUTF8_utf8 (l : List Char) : ValidUTF8 (utf8 l) := coerceUTF8_utf8 l

theorem validUTF8_str (s : String) : ValidUTF8 (str s) := coerceUTF8_utf8 s.data

theorem utf8_cons (c : Char) (l : List Char) : utf8 (c :: l) = encodeRune c ++ utf8 l := by
  simp [utf8]

theorem utf8_append (l m : List Char) : utf8 (l ++ m) = utf8 l ++ utf8 m := by
  simp [utf8]

/-! ## Lemmas on strings.Split -/

theorem splitBytes_ne_nil (sep : UInt8) (l : List UInt8) : splitBytes sep l ≠ [] := by
  induction l with
  | nil => simp [splitBytes]
  | cons c rest ih =>
    unfold splitBytes
    split_ifs
    · simp
    · split <;> simp

theorem splitBytes_join (sep : UInt8) (l : List UInt8) :
    List.intercalate [sep] (splitBytes sep l) = l := by
  induction l with
  | nil => simp [splitBytes, List.intercalate]
  | cons c rest ih =>
    unfold splitBytes
    split_ifs with h
    · rcases hs : splitBytes sep rest with _ | ⟨piece, pieces⟩
      · exact absurd hs (splitBytes_ne_nil sep rest)
      · rw [hs] at ih
        simp only [List.intercalate, List.intersperse, List.flatten_cons, List.nil_append,
          List.singleton_append] at ih ⊢
        rw [ih, h]
    · rcases hs : splitBytes sep rest with _ | ⟨piece, pieces⟩
      · exact absurd hs (splitBytes_ne_nil sep rest)
      · rw [hs] at ih
        cases pieces with
        | nil =>
          simp only [List.intercalate, List.intersperse, List.flatten_cons, List.flatten_nil,
            List.append_nil] at ih ⊢
          rw [ih]
        | cons q qs =>
          simp only [List.intercalate, List.intersperse, List.flatten_cons,
            List.cons_append] at ih ⊢
          rw [ih]

theorem splitBytes_length (sep : UInt8) (l : List UInt8) :
    (splitBytes sep l).length = l.count sep + 1 := by
  induction l with
  | nil => simp [splitBytes]
  | cons c rest ih =>
    unfold splitBytes
    split_ifs with h
    · simp [ih, h]
    · have hne : ¬ (c == sep) = true := by simpa using h
      rcases hs : splitBytes sep rest with _ | ⟨piece, pieces⟩
      · exact absurd hs (splitBytes_ne_nil sep rest)
      · rw [hs] at ih
        simp only [List.length_cons] at ih ⊢
        rw [List.count_cons, if_neg hne]
        omega

theorem splitBytes_append (sep : UInt8) (bs rest piece : List UInt8) (pieces : List (List UInt8))
    (hbs : ∀ b ∈ bs, b ≠ sep) (hs : splitBytes sep rest = piece :: pieces) :
    splitBytes sep (bs ++ rest) = (bs ++ piece) :: pieces := by
  induction bs with
  | nil => simpa using hs
  | cons b bs ih =>
    simp only [List.mem_cons, forall_eq_or_imp] at hbs
    have h := ih hbs.2
    rw [List.cons_append, splitBytes, if_neg hbs.1, h]
    rfl

theorem encodeRune_comma : encodeRune ',' = [byte ','] := by decide

theorem encodeRune_no_comma (c : Char) (hc : c ≠ ',') : ∀ b ∈ encodeRune c, b ≠ byte ',' := by
  have hb : (byte ',').toNat = 44 := by decide
  have key : ∀ n : Nat, n < 256 → n ≠ 44 → UInt8.ofNat n ≠ byte ',' := by
    intro n hn h44 he
    have := congrArg UInt8.toNat he
    rw [toNat_ofNat_lt n hn, hb] at this
    exact h44 this
  have hr := char_range c
  have hne : c.toNat ≠ 44 := by
    intro h
    apply hc
    have : Char.ofNat c.toNat = Char.ofNat 44 := by rw [h]
    rw [Char.ofNat_toNat] at this
    exact this
  intro b hb
  unfold encodeRune at hb
  split_ifs at hb with h1 h2 h3
  · simp only [List.mem_singleton] at hb
    subst hb
    exact key _ (by omega) hne
  · simp only [List.mem_cons, List.mem_singleton, List.not_mem_nil, or_false] at hb
    rcases hb with rfl | rfl
    · exact key _ (by omega) (by omega)
    · exact key _ (by omega) (by omega)
  · simp only [List.mem_cons, List.mem_singleton, List.not_mem_nil, or_false] at hb
    rcases hb with rfl | rfl | rfl
    · exact key _ (by omega) (by omega)
    · exact key _ (by omega) (by omega)
    · exact key _ (by omega) (by omega)
  · simp only [List.mem_cons, List.mem_singleton, List.not_mem_nil, or_false] at hb
    rcases hb with rfl | rfl | rfl | rfl
    · exact key _ (by omega) (by omega)
    · exact key _ (by omega) (by omega)
    · exact key _ (by omega) (by omega)
    · exact key _ (by omega) (by omega)

theorem splitBytes_utf8 (l : List Char) :
    ∃ ls : List (List Char), splitBytes (byte ',') (utf8 l) = ls.map utf8 := by
  induction l with
  | nil => exact ⟨[[]], rfl⟩
  | cons c l ih =>
    obtain ⟨ls, hls⟩ := ih
    rw [utf8_cons]
    by_cases hc : c = ','
    · refine ⟨[] :: ls, ?_⟩
      rw [hc, encodeRune_comma, List.singleton_append, splitBytes, if_pos rfl, hls]
      rfl
    · cases ls with
      | nil =>
        exact absurd hls (by simpa using splitBytes_ne_nil (byte ',') (utf8 l))
      | cons p ps =>
        refine ⟨(c :: p) :: ps, ?_⟩
        rw [splitBytes_append _ _ _ (utf8 p) (ps.map utf8) (encodeRune_no_comma c hc)
          (by simpa using hls)]
        simp [utf8_cons]

/-- The pieces of a valid UTF-8 string between commas are valid UTF-8. -/
theorem Split_valid (p : GoString) (hp : ValidUTF8 p) : ∀ s ∈ Split p (byte ','), ValidUTF8 s := by
  obtain ⟨ls, hls⟩ := splitBytes_utf8 (chars p)
  have e : utf8 (chars p) = p := hp
  rw [e] at hls
  intro s hs
  rw [Split, hls] at hs
  obtain ⟨l, _, rfl⟩ := List.mem_map.mp hs
  exact validUTF8_utf8 l

/-! ## The executable library instance satisfies the library laws -/

namespace GoJson

theorem rs_plain_quote (acc rest : List Char) :
    readString StringMode.plain acc ('"' :: rest) = some (acc.reverse, rest) := by
  rw [readString]; simp

theorem rs_plain_bs (acc rest : List Char) :
    readString StringMode.plain acc ('\\' :: rest) = readString StringMode.esc acc rest := by
  rw [readString]; simp

theorem rs_plain_other (c : Char) (acc rest : List Char) (h1 : c ≠ '"') (h2 : c ≠ '\\')
    (h3 : ¬ c.toNat < 32) :
    readString StringMode.plain acc (c :: rest) = readString StringMode.plain (c :: acc) rest := by
  rw [readString]; simp [h1, h2, h3]

theorem rs_esc_u (acc rest : List Char) :
    readString StringMode.esc acc ('u' :: rest) = readString (StringMode.hex 3 0) acc rest := by
  rw [readString]; simp

theorem rs_esc_other (e ch : Char) (acc rest : List Char) (h1 : e ≠ 'u')
    (h2 : unescape e = some ch) :
    readString StringMode.esc acc (e :: rest) = readString StringMode.plain (ch :: acc) rest := by
  rw [readString]; simp [h1, h2]

theorem rs_hex_succ (k v d : Nat) (h : Char) (acc rest : List Char) (hd : hexVal h = some d) :
    readString (StringMode.hex (k + 1) v) acc (h :: rest)
      = readString (StringMode.hex k (v * 16 + d)) acc rest := by
  rw [readString]; simp [hd]

theorem rs_hex_zero (v d : Nat) (h : Char) (acc rest : List Char) (hd : hexVal h = some d)
    (hv : v * 16 + d < 55296 ∨ 57343 < v * 16 + d) :
    readString (StringMode.hex 0 v) acc (h :: rest)
      = readString StringMode.plain (Char.ofNat (v * 16 + d) :: acc) rest := by
  have h1 : ¬ isHigh (v * 16 + d) := by unfold isHigh; omega
  have h2 : ¬ isLow (v * 16 + d) := by unfold isLow; omega
  rw [readString]; simp [hd, h1, h2]

theorem hexVal_hexDigit : ∀ n, n < 16 → hexVal (hexDigit n) = some n := by decide

theorem rs_hex4 (a b c d : Char) (va vb vc vd : Nat) (acc rest : List Char)
    (ha : hexVal a = some va) (hb : hexVal b = some vb) (hc : hexVal c = some vc)
    (hd : hexVal d = some vd)
    (hv : ((va * 16 + vb) * 16 + vc) * 16 + vd < 55296 ∨
      57343 < ((va * 16 + vb) * 16 + vc) * 16 + vd) :
    readString StringMode.plain acc ('\\' :: 'u' :: a :: b :: c :: d :: rest)
      = readString StringMode.plain
          (Char.ofNat (((va * 16 + vb) * 16 + vc) * 16 + vd) :: acc) rest := by
  rw [rs_plain_bs, rs_esc_u, rs_hex_succ 2 0 va a _ _ ha, rs_hex_succ 1 _ vb b _ _ hb,
    rs_hex_succ 0 _ vc c _ _ hc, rs_hex_zero _ vd d _ _ hd (by simpa using hv)]
  simp

theorem rs_escapeChar (c : Char) (acc rest : List Char) :
    readString StringMode.plain acc (escapeChar c ++ rest)
      = readString StringMode.plain (c :: acc) rest := by
  unfold escapeChar
  split_ifs with h1 h2 h3 h4 h5 h6 h7 h8
  · rw [h1]; exact (rs_plain_bs _ _).trans (rs_esc_other _ _ _ _ (by decide) (by decide))
  · rw [h2]; exact (rs_plain_bs _ _).trans (rs_esc_other _ _ _ _ (by decide) (by decide))
  · rw [h3]; exact (rs_plain_bs _ _).trans (rs_esc_other _ _ _ _ (by decide) (by decide))
  · rw [h4]; exact (rs_plain_bs _ _).trans (rs_esc_other _ _ _ _ (by decide) (by decide))
  · rw [h5]; exact (rs_plain_bs _ _).trans (rs_esc_other _ _ _ _ (by decide) (by decide))
  · have hn : c.toNat < 128 := by
      rcases h6 with h | h | h | h
      · omega
      · rw [h]; decide
      · rw [h]; decide
      · rw [h]; decide
    have e := rs_hex4 '0' '0' (hexDigit (c.toNat / 16)) (hexDigit (c.toNat % 16)) 0 0
      (c.toNat / 16) (c.toNat % 16) acc rest (by decide) (by decide)
      (hexVal_hexDigit _ (by omega)) (hexVal_hexDigit _ (by omega)) (by omega)
    have e2 : ((0 * 16 + 0) * 16 + c.toNat / 16) * 16 + c.toNat % 16 = c.toNat := by omega
    rw [e2, Char.ofNat_toNat] at e
    exact e
  · have e := rs_hex4 '2' '0' '2' '8' 2 0 2 8 acc rest (by decide) (by decide) (by decide)
      (by decide) (by omega)
    have e2 : ((2 * 16 + 0) * 16 + 2) * 16 + 8 = c.toNat := by omega
    rw [e2, Char.ofNat_toNat] at e
    exact e
  · have e := rs_hex4 '2' '0' '2' '9' 2 0 2 9 acc rest (by decide) (by decide) (by decide)
      (by decide) (by omega)
    have e2 : ((2 * 16 + 0) * 16 + 2) * 16 + 9 = c.toNat := by omega
    rw [e2, Char.ofNat_toNat] at e
    exact e
  · have h32 : ¬ c.toNat < 32 := fun h => h6 (Or.inl h)
    exact rs_plain_other c acc rest h1 h2 h32

theorem rs_escapeRune (r : Option Char) (acc rest : List Char) :
    readString StringMode.plain acc (escapeRune r ++ rest)
      = readString StringMode.plain (r.getD replacementChar :: acc) rest := by
  cases r with
  | some c => exact rs_escapeChar c acc rest
  | none =>
    exact rs_hex4 'f' 'f' 'f' 'd' 15 15 15 13 acc rest (by decide) (by decide) (by decide)
      (by decide) (by omega)

theorem readString_escape (rs : List (Option Char)) (acc rest : List Char) :
    readString StringMode.plain acc (rs.flatMap escapeRune ++ '"' :: rest)
      = some (acc.reverse ++ rs.map (fun r => r.getD replacementChar), rest) := by
  induction rs generalizing acc with
  | nil => simp [rs_plain_quote]
  | cons r rs ih =>
    simp only [List.flatMap_cons, List.append_assoc]
    rw [rs_escapeRune, ih]
    simp

theorem skipWs_cons (c : Char) (l : List Char) (h : isWs c = false) : skipWs (c :: l) = c :: l := by
  simp [skipWs, h]

theorem parseValue_string (fuel : Nat) (g : GoString) (rest : List Char) :
    parseValue (fuel + 1) (encString g ++ rest) = some (stringJ g, rest) := by
  have e : encString g ++ rest = '"' :: ((runes g).flatMap escapeRune ++ '"' :: rest) := by
    simp [encString]
  rw [e, parseValue, skipWs_cons _ _ (by decide)]
  simp [readString_escape, stringJ, chars]

theorem parseValue_null (fuel : Nat) (rest : List Char) :
    parseValue (fuel + 1) ('n' :: 'u' :: 'l' :: 'l' :: rest) = some (JV.null, rest) := by
  rw [parseValue, skipWs_cons _ _ (by decide)]
  simp

theorem parseValue_arr (fuel : Nat) (c : Char) (l : List Char) (hw : isWs c = false)
    (hc : c ≠ ']') :
    parseValue (fuel + 1) ('[' :: c :: l) =
      match parseElems fuel (c :: l) with
      | some (vs, r) => some (JV.arr vs, r)
      | none => none := by
  rw [parseValue, skipWs_cons _ _ (by decide)]
  simp [skipWs_cons _ _ hw, hc]

theorem parseValue_obj (fuel : Nat) (c : Char) (l : List Char) (hw : isWs c = false)
    (hc : c ≠ '\x7d') :
    parseValue (fuel + 1) ('\x7b' :: c :: l) =
      match parseMembers fuel (c :: l) with
      | some (ms, r) => some (JV.obj ms, r)
      | none => none := by
  rw [parseValue, skipWs_cons _ _ (by decide)]
  simp [skipWs_cons _ _ hw, hc]

theorem parseElems_last (fuel : Nat) (l rest : List Char) (v : JV)
    (h : parseValue fuel l = some (v, ']' :: rest)) :
    parseElems (fuel + 1) l = some ([v], rest) := by
  rw [parseElems, h]
  simp [skipWs_cons _ _ (show isWs ']' = false by decide)]

theorem parseElems_more (fuel : Nat) (l rest : List Char) (v : JV)
    (h : parseValue fuel l = some (v, ',' :: rest)) :
    parseElems (fuel + 1) l =
      match parseElems fuel rest with
      | some (vs, r) => some (v :: vs, r)
      | none => none := by
  rw [parseElems, h]
  simp [skipWs_cons _ _ (show isWs ',' = false by decide)]

theorem parseElems_encTail {α : Type} (enc : α → List Char) (toJ : α → JV)
    (henc : ∀ x fuel rest, (enc x).length ≤ fuel → parseValue fuel (enc x ++ rest) = some (toJ x, rest))
    (xs : List α) : ∀ (x : α) (fuel : Nat) (rest : List Char),
      (enc x ++ encTail enc xs).length ≤ fuel →
      parseElems fuel (enc x ++ (encTail enc xs ++ rest)) = some ((x :: xs).map toJ, rest) := by
  induction xs with
  | nil =>
    intro x fuel rest hf
    simp only [encTail, List.length_append, List.length_cons, List.length_nil] at hf
    obtain ⟨f, rfl⟩ : ∃ f, fuel = f + 1 := ⟨fuel - 1, by omega⟩
    have h1 := henc x f (']' :: rest) (by omega)
    simpa [encTail] using parseElems_last f _ rest _ h1
  | cons y ys ih =>
    intro x fuel rest hf
    simp only [encTail, List.length_append, List.length_cons] at hf
    obtain ⟨f, rfl⟩ : ∃ f, fuel = f + 1 := ⟨fuel - 1, by omega⟩
    have h1 := henc x f (',' :: (enc y ++ (encTail enc ys ++ rest))) (by omega)
    have h2 := ih y f rest (by simp only [List.length_append]; omega)
    have h3 := parseElems_more f _ _ _ h1
    rw [h2] at h3
    simpa [encTail] using h3

theorem parseValue_encList {α : Type} (enc : α → List Char) (toJ : α → JV)
    (henc : ∀ x fuel rest, (enc x).length ≤ fuel → parseValue fuel (enc x ++ rest) = some (toJ x, rest))
    (hhead : ∀ x, ∃ c tl, enc x = c :: tl ∧ isWs c = false ∧ c ≠ ']')
    (xs : List α) (fuel : Nat) (rest : List Char) (hf : (encList enc xs).length ≤ fuel) :
    parseValue fuel (encList enc xs ++ rest) = some (listJ toJ xs, rest) := by
  cases xs with
  | nil =>
    simp only [encList, List.length_cons, List.length_nil] at hf
    obtain ⟨f, rfl⟩ : ∃ f, fuel = f + 1 := ⟨fuel - 1, by omega⟩
    simpa [encList, listJ] using parseValue_null f rest
  | cons x xs =>
    simp only [encList, List.length_cons] at hf
    obtain ⟨f, rfl⟩ : ∃ f, fuel = f + 1 := ⟨fuel - 1, by omega⟩
    obtain ⟨c, tl, hx, hw, hc⟩ := hhead x
    have h2 := parseElems_encTail enc toJ henc xs x f rest (by omega)
    have h3 := parseValue_arr f c (tl ++ (encTail enc xs ++ rest)) hw hc
    have e : encList enc (x :: xs) ++ rest = '[' :: c :: (tl ++ (encTail enc xs ++ rest)) := by
      simp [encList, hx]
    have e2 : enc x ++ (encTail enc xs ++ rest) = c :: (tl ++ (encTail enc xs ++ rest)) := by
      simp [hx]
    rw [e, h3, ← e2, h2]
    rfl

theorem parseValue_empty_arr (fuel : Nat) (rest : List Char) :
    parseValue (fuel + 1) ('[' :: ']' :: rest) = some (JV.arr [], rest) := by
  rw [parseValue, skipWs_cons _ _ (by decide)]
  simp [skipWs_cons _ _ (show isWs ']' = false by decide)]

theorem parseValue_encSlice {α : Type} (enc : α → List Char) (toJ : α → JV)
    (henc : ∀ x fuel rest, (enc x).length ≤ fuel → parseValue fuel (enc x ++ rest) = some (toJ x, rest))
    (hhead : ∀ x, ∃ c tl, enc x = c :: tl ∧ isWs c = false ∧ c ≠ ']')
    (xs : Option (List α)) (fuel : Nat) (rest : List Char) (hf : (encSlice enc xs).length ≤ fuel) :
    parseValue fuel (encSlice enc xs ++ rest) = some (sliceJ toJ xs, rest) := by
  match xs with
  | none =>
    simp only [encSlice, List.length_cons, List.length_nil] at hf
    obtain ⟨f, rfl⟩ : ∃ f, fuel = f + 1 := ⟨fuel - 1, by omega⟩
    simpa [encSlice, sliceJ] using parseValue_null f rest
  | some [] =>
    simp only [encSlice, List.length_cons, List.length_nil] at hf
    obtain ⟨f, rfl⟩ : ∃ f, fuel = f + 1 := ⟨fuel - 1, by omega⟩
    simpa [encSlice, sliceJ] using parseValue_empty_arr f rest
  | some (x :: xs) =>
    exact parseValue_encList enc toJ henc hhead (x :: xs) fuel rest hf

theorem readKey (k : String) (l : List Char) :
    readString StringMode.plain [] ((runes (Smartlog.str k)).flatMap escapeRune ++ '"' :: l)
      = some (k.data, l) := by
  rw [readString_escape]
  have h := chars_utf8 k.data
  simp only [chars] at h
  simp [Smartlog.str, h]

theorem parseMembers_last (fuel : Nat) (k : String) (l rest : List Char) (v : JV)
    (h : parseValue fuel l = some (v, '\x7d' :: rest)) :
    parseMembers (fuel + 1) (encString (Smartlog.str k) ++ ':' :: l) = some ([(k.data, v)], rest) := by
  have e : encString (Smartlog.str k) ++ ':' :: l
      = '"' :: ((runes (Smartlog.str k)).flatMap escapeRune ++ '"' :: ':' :: l) := by
    simp [encString]
  rw [e, parseMembers, skipWs_cons _ _ (by decide)]
  simp [readKey, skipWs_cons _ _ (show isWs ':' = false by decide), h,
    skipWs_cons _ _ (show isWs '\x7d' = false by decide)]

theorem parseMembers_more (fuel : Nat) (k : String) (l rest : List Char) (v : JV)
    (h : parseValue fuel l = some (v, ',' :: rest)) :
    parseMembers (fuel + 1) (encString (Smartlog.str k) ++ ':' :: l) =
      match parseMembers fuel rest with
      | some (ms, r) => some ((k.data, v) :: ms, r)
      | none => none := by
  have e : encString (Smartlog.str k) ++ ':' :: l
      = '"' :: ((runes (Smartlog.str k)).flatMap escapeRune ++ '"' :: ':' :: l) := by
    simp [encString]
  rw [e, parseMembers, skipWs_cons _ _ (by decide)]
  simp [readKey, skipWs_cons _ _ (show isWs ':' = false by decide), h,
    skipWs_cons _ _ (show isWs ',' = false by decide)]

theorem parseValue_encString (g : GoString) (fuel : Nat) (rest : List Char)
    (hf : (encString g).length ≤ fuel) :
    parseValue fuel (encString g ++ rest) = some (stringJ g, rest) := by
  simp only [encString, List.length_cons] at hf
  obtain ⟨f, rfl⟩ : ∃ f, fuel = f + 1 := ⟨fuel - 1, by omega⟩
  exact parseValue_string f g rest

theorem encString_head (g : GoString) :
    ∃ c tl, encString g = c :: tl ∧ isWs c = false ∧ c ≠ ']' :=
  ⟨'"', _, rfl, by decide, by decide⟩

theorem encChain_eq (chain : Chain) (rest : List Char) :
    encChain chain ++ rest = '\x7b' :: '"' :: ("id\"".data ++ ':' :: (encString chain.Id ++ ',' ::
      (encString (Smartlog.str "participants") ++ ':' ::
        (encSlice encString chain.Participants ++ '\x7d' :: rest)))) := by
  have e : encString (Smartlog.str "participants") = "\"participants\"".data := by decide
  rw [e]
  simp [encChain]

theorem parseValue_encChain (chain : Chain) (fuel : Nat) (rest : List Char)
    (hf : (encChain chain).length ≤ fuel) :
    parseValue fuel (encChain chain ++ rest) = some (chainJ chain, rest) := by
  have hlen : (encChain chain).length
      = (encString chain.Id).length + (encSlice encString chain.Participants).length + 23 := by
    simp [encChain]; omega
  obtain ⟨f, rfl⟩ : ∃ f, fuel = f + 3 := ⟨fuel - 3, by omega⟩
  have h1 := parseValue_encSlice encString stringJ parseValue_encString encString_head
    chain.Participants f ('\x7d' :: rest) (by omega)
  have h2 := parseMembers_last f "participants" _ rest _ h1
  have h3 := parseValue_encString chain.Id (f + 1)
    (',' :: (encString (Smartlog.str "participants") ++ ':' ::
        (encSlice encString chain.Participants ++ '\x7d' :: rest))) (by omega)
  have h4 := parseMembers_more (f + 1) "id" _ _ _ h3
  rw [h2] at h4
  rw [encChain_eq, parseValue_obj _ _ _ (by decide) (by decide)]
  have e0 : encString (Smartlog.str "id") = "\"id\"".data := by decide
  have e : ('"' :: ("id\"".data ++ ':' :: (encString chain.Id ++ ',' ::
      (encString (Smartlog.str "participants") ++ ':' ::
        (encSlice encString chain.Participants ++ '\x7d' :: rest)))))
      = encString (Smartlog.str "id") ++ ':' :: (encString chain.Id ++ ',' ::
      (encString (Smartlog.str "participants") ++ ':' ::
        (encSlice encString chain.Participants ++ '\x7d' :: rest))) := by
    rw [e0]
    rfl
  rw [e, h4]
  rfl

theorem encChain_head (chain : Chain) :
    ∃ c tl, encChain chain = c :: tl ∧ isWs c = false ∧ c ≠ ']' :=
  ⟨'\x7b', _, rfl, by decide, by decide⟩

theorem stringItems_map (ss : List GoString) :
    stringItems (ss.map stringJ) = (ss.map coerceUTF8, none) := by
  induction ss with
  | nil => rfl
  | cons s ss ih => simp [stringItems, ih, stringInto, stringJ, firstError, coerceUTF8]

theorem stringsInto_sliceJ (ss : Option (List GoString)) :
    stringsInto (sliceJ stringJ ss) none = (ss.map (fun parts => parts.map coerceUTF8), none) := by
  cases ss with
  | none => rfl
  | some l => simp [sliceJ, stringsInto, stringItems_map]

theorem chainInto_chainJ (chain : Chain) : chainInto (chainJ chain) = (coerceChain chain, none) := by
  have h1 : fieldName "id".data = "id".data := by decide
  have h2 : fieldName "participants".data ≠ "id".data := by decide
  have h3 : fieldName "participants".data = "participants".data := by decide
  rw [chainJ, chainInto, chainMembers, if_pos h1, chainMembers, if_neg h2, if_pos h3,
    chainMembers, stringsInto_sliceJ]
  rfl

theorem chainItems_map (cs : List Chain) :
    chainItems (cs.map chainJ) = (cs.map coerceChain, none) := by
  induction cs with
  | nil => rfl
  | cons c cs ih => simp [chainItems, ih, chainInto_chainJ, firstError]

theorem chainsInto_listJ (cs : List Chain) :
    chainsInto (listJ chainJ cs) = (cs.map coerceChain, none) := by
  cases cs with
  | nil => rfl
  | cons c cs => simpa [listJ, chainsInto] using chainItems_map (c :: cs)

/-- The instance reads back a chain array it has written, with the invalid
bytes of the strings replaced by U+FFFD. -/
theorem UnmarshalChains_MarshalChains (cs : List Chain) :
    UnmarshalChains (MarshalChains cs) = (cs.map coerceChain, none) := by
  have h := parseValue_encList encChain chainJ parseValue_encChain encChain_head cs
    (encList encChain cs).length [] (le_refl _)
  simp only [List.append_nil] at h
  simp [UnmarshalChains, MarshalChains, parseJson, chars_utf8, h, skipWs, chainsInto_listJ]

theorem stringInto_valid (v : JV) (old : GoString) (h : ValidUTF8 old) :
    ValidUTF8 (stringInto v old).1 := by
  cases v <;> simp only [stringInto] <;> first | exact h | exact validUTF8_utf8 _

theorem stringItems_valid (vs : List JV) : ∀ s ∈ (stringItems vs).1, ValidUTF8 s := by
  induction vs with
  | nil => simp [stringItems]
  | cons v vs ih =>
    intro s hs
    simp only [stringItems, List.mem_cons] at hs
    rcases hs with rfl | hs
    · exact stringInto_valid v [] rfl
    · exact ih s hs

theorem stringsInto_valid (v : JV) (old : Option (List GoString))
    (h : ∀ l ∈ old, ∀ s ∈ l, ValidUTF8 s) :
    ∀ l ∈ (stringsInto v old).1, ∀ s ∈ l, ValidUTF8 s := by
  cases v <;> simp only [stringsInto] <;>
    first
    | exact h
    | (intro l hl; simp only [Option.mem_def, Option.some.injEq] at hl; subst hl
       exact stringItems_valid _)
    | (intro l hl; simp at hl)

theorem chainMembers_valid (ms : List (List Char × JV)) :
    ∀ chain : Chain, ValidUTF8 chain.Id → (∀ l ∈ chain.Participants, ∀ s ∈ l, ValidUTF8 s) →
      ValidUTF8 (chainMembers ms chain).1.Id ∧
        ∀ l ∈ (chainMembers ms chain).1.Participants, ∀ s ∈ l, ValidUTF8 s := by
  induction ms with
  | nil => intro chain h1 h2; exact ⟨h1, h2⟩
  | cons m ms ih =>
    intro chain h1 h2
    obtain ⟨k, v⟩ := m
    simp only [chainMembers]
    split_ifs
    · exact ih _ (stringInto_valid v chain.Id h1) h2
    · exact ih _ h1 (stringsInto_valid v chain.Participants h2)
    · exact ih _ h1 h2

theorem chainInto_valid (v : JV) :
    ValidUTF8 (chainInto v).1.Id ∧ ∀ l ∈ (chainInto v).1.Participants, ∀ s ∈ l, ValidUTF8 s := by
  have hz : ValidUTF8 ([] : GoString) := rfl
  cases v <;> simp only [chainInto] <;>
    first
    | exact chainMembers_valid _ _ hz (by simp)
    | exact ⟨hz, by simp⟩

theorem chainItems_valid (vs : List JV) :
    ∀ c ∈ (chainItems vs).1, ValidUTF8 c.Id ∧ ∀ l ∈ c.Participants, ∀ s ∈ l, ValidUTF8 s := by
  induction vs with
  | nil => simp [chainItems]
  | cons v vs ih =>
    intro c hc
    simp only [chainItems, List.mem_cons] at hc
    rcases hc with rfl | hc
    · exact chainInto_valid v
    · exact ih c hc

theorem chainsInto_valid (v : JV) :
    ∀ c ∈ (chainsInto v).1, ValidUTF8 c.Id ∧ ∀ l ∈ c.Participants, ∀ s ∈ l, ValidUTF8 s := by
  cases v <;> simp only [chainsInto] <;>
    first | exact chainItems_valid _ | (intro c hc; simp at hc)

/-- The strings of every chain array the instance decodes are valid UTF-8. -/
theorem UnmarshalChains_valid (bytes : GoString) :
    ∀ c ∈ (UnmarshalChains bytes).1, ValidUTF8 c.Id ∧ ∀ l ∈ c.Participants, ∀ s ∈ l, ValidUTF8 s := by
  unfold UnmarshalChains
  split
  · intro c hc; simp at hc
  · exact chainsInto_valid _

end GoJson

theorem coerceChain_of_valid (c : Chain) (h1 : ValidUTF8 c.Id)
    (h2 : ∀ l ∈ c.Participants, ∀ s ∈ l, ValidUTF8 s) : coerceChain c = c := by
  cases c with
  | mk i ps =>
    simp only [coerceChain, Chain.mk.injEq]
    refine ⟨h1, ?_⟩
    cases ps with
    | none => rfl
    | some l =>
      have e : l.map coerceUTF8 = l.map (fun s => s) :=
        List.map_congr_left (fun s hs => h2 l rfl s hs)
      simpa using e

theorem coerceChain_Id (c : Chain) : (coerceChain c).Id = coerceUTF8 c.Id := rfl

theorem coerceChain_idem (c : Chain) : coerceChain (coerceChain c) = coerceChain c := by
  simp [coerceChain, coerceUTF8_idem, Function.comp_def]

/-- The executable library instance satisfies the library laws. -/
theorem goJson_laws : JsonLaws goJson := by
  refine ⟨GoJson.UnmarshalChains_MarshalChains, ?_, by decide⟩
  intro bytes c hc
  have h := GoJson.UnmarshalChains_valid bytes c hc
  exact coerceChain_of_valid c h.1 h.2

/-! ## Lemmas on the ledger accessor -/

theorem PutState_state (stub : Stub) (key value : GoString) (h : stub.putErr key = none) :
    (stub.PutState key value).1.state key = some value := by
  simp [Stub.PutState, h]

theorem PutState_getErr (stub : Stub) (key value : GoString) :
    (stub.PutState key value).1.getErr = stub.getErr := by
  unfold Stub.PutState
  split <;> rfl

theorem PutState_putErr (stub : Stub) (key value : GoString) :
    (stub.PutState key value).1.putErr = stub.putErr := by
  unfold Stub.PutState
  split <;> rfl

theorem PutState_failed (stub : Stub) (key value e : GoString) (h : stub.putErr key = some e) :
    (stub.PutState key value).1 = stub := by
  simp [Stub.PutState, h]

theorem GetState_of_state (stub : Stub) (key value : GoString) (hg : stub.getErr key = none)
    (hs : stub.state key = some value) : stub.GetState key = (value, none) := by
  simp [Stub.GetState, hg, hs]

theorem GetState_after_PutState (stub : Stub) (key value : GoString)
    (hp : stub.putErr key = none) (hg : stub.getErr key = none) :
    (stub.PutState key value).1.GetState key = (value, none) :=
  GetState_of_state _ _ _ (by rw [PutState_getErr]; exact hg) (PutState_state _ _ _ hp)

/-! ## Lemmas on the handlers -/

theorem str_empty : str "" = [] := rfl

namespace TransportChain

theorem scanIndex_ge (id : GoString) (cs : List Chain) (k : Nat) :
    scanIndex id cs k = -1 ∨ (k : Int) ≤ scanIndex id cs k := by
  induction cs generalizing k with
  | nil => simp [scanIndex]
  | cons c cs ih =>
    by_cases h : c.Id = id
    · simp [scanIndex, h]
    · simp only [scanIndex, h, if_false]
      rcases ih (k + 1) with h0 | h0
      · exact Or.inl h0
      · right
        push_cast at h0
        omega

theorem scanIndex_shift (id : GoString) (cs : List Chain) (k : Nat) :
    scanIndex id cs k = if scanIndex id cs 0 = -1 then -1 else scanIndex id cs 0 + k := by
  induction cs generalizing k with
  | nil => simp [scanIndex]
  | cons c cs ih =>
    by_cases h : c.Id = id
    · simp [scanIndex, h]
    · simp only [scanIndex, h, if_false]
      rw [ih (k + 1), ih (0 + 1)]
      have hge := scanIndex_ge id cs 0
      by_cases h0 : scanIndex id cs 0 = -1
      · simp [h0]
      · simp only [h0, if_false]
        have h1 : ¬ (scanIndex id cs 0 + ((0 + 1 : Nat) : Int) = -1) := by
          push_cast
          omega
        rw [if_neg h1]
        push_cast
        omega

theorem scanIndex_nonneg (id : GoString) (cs : List Chain) :
    scanIndex id cs 0 = -1 ∨ 0 ≤ scanIndex id cs 0 := by
  simpa using scanIndex_ge id cs 0

theorem mergedChains_nil (n : Chain) : mergedChains [] n = [n] := by
  simp [mergedChains, scanIndex]

theorem mergedChains_cons (c : Chain) (cs : List Chain) (n : Chain) :
    mergedChains (c :: cs) n = if c.Id = n.Id then n :: cs else c :: mergedChains cs n := by
  by_cases h : c.Id = n.Id
  · simp [mergedChains, scanIndex, h]
  · simp only [mergedChains, scanIndex, h, if_false]
    rw [scanIndex_shift]
    rcases scanIndex_nonneg n.Id cs with h0 | h0
    · simp [h0]
    · have h1 : scanIndex n.Id cs 0 ≠ -1 := by omega
      have h2 : scanIndex n.Id cs 0 + ((0 + 1 : Nat) : Int) ≠ -1 := by omega
      have h3 : (scanIndex n.Id cs 0 + ((0 + 1 : Nat) : Int)).toNat = (scanIndex n.Id cs 0).toNat + 1 := by
        omega
      simp only [h1, if_false, h2, ne_eq, not_false_eq_true, if_true, h3, List.set_cons_succ]

/-- What setTransportChain does once its load step has yielded `cs`. -/
theorem setTransportChain_loaded (J : Json) (stub : Stub) (A p : GoString) (cs : List Chain)
    (h : Loads J stub cs) :
    setTransportChain J stub [A, p] =
      (Response.Success (J.MarshalChain ⟨A, some (Split p (byte ','))⟩),
        (stub.PutState (str "chains") (J.MarshalChains (mergedChains cs ⟨A, some (Split p (byte ','))⟩))).1) := by
  obtain ⟨h1, h2⟩ := h
  rcases hU : J.UnmarshalChains (stub.GetState (str "chains")).1 with ⟨chains, err⟩
  rw [hU] at h1 h2
  simp only at h1 h2
  subst h1
  have hg : ¬ (chains.length ≠ 0 ∧ err ≠ none) := by
    rcases h2 with h2 | h2
    · simp [h2]
    · simp [h2]
  simp only [setTransportChain, List.length_cons, List.length_nil, ne_eq, not_true_eq_false,
    if_false, hU, List.getD_cons_zero, List.getD_cons_succ]
  rw [if_neg hg]
  simp only [mergedChains]
  split_ifs <;> first | rfl | contradiction

/-- The load step on a ledger with nothing stored under (str "chains"), when the
library leaves the slice empty on the empty input. -/
theorem Loads_absent (J : Json) (stub : Stub) (hs : stub.state (str "chains") = none)
    (hnil : (J.UnmarshalChains []).1 = []) : Loads J stub [] := by
  refine ⟨?_, Or.inl rfl⟩
  unfold Stub.GetState
  cases stub.getErr (str "chains") <;> simp [hs, hnil]

/-- The load step on a ledger whose (str "chains") value is a well-formed array. -/
theorem Loads_stored (J : Json) (stub : Stub) (bytes : GoString) (cs : List Chain)
    (hg : stub.getErr (str "chains") = none) (hs : stub.state (str "chains") = some bytes)
    (hdec : J.UnmarshalChains bytes = (cs, none)) : Loads J stub cs := by
  unfold Loads
  rw [GetState_of_state stub (str "chains") bytes hg hs, hdec]
  exact ⟨rfl, Or.inr rfl⟩

theorem mergedChains_ids_nodup (cs : List Chain) (n : Chain) (h : (cs.map Chain.Id).Nodup) :
    ((mergedChains cs n).map Chain.Id).Nodup := by
  induction cs with
  | nil => simp [mergedChains_nil]
  | cons c cs ih =>
    rw [mergedChains_cons]
    simp only [List.map_cons, List.nodup_cons] at h
    by_cases hc : c.Id = n.Id
    · simp only [hc, if_true, List.map_cons, List.nodup_cons]
      exact ⟨hc ▸ h.1, h.2⟩
    · simp only [hc, if_false, List.map_cons, List.nodup_cons]
      refine ⟨?_, ih h.2⟩
      have hmem : ∀ (l : List Chain), c.Id ∉ l.map Chain.Id → c.Id ∉ (mergedChains l n).map Chain.Id := by
        intro l
        induction l with
        | nil =>
          intro _
          simp [mergedChains_nil, hc]
        | cons d l ihl =>
          intro hd
          rw [mergedChains_cons]
          simp only [List.map_cons, List.mem_cons, not_or] at hd
          by_cases hdn : d.Id = n.Id
          · simp only [hdn, if_true, List.map_cons, List.mem_cons, not_or]
            exact ⟨hc, hd.2⟩
          · simp only [hdn, if_false, List.map_cons, List.mem_cons, not_or]
            exact ⟨hd.1, ihl hd.2⟩
      exact hmem cs h.1

theorem mergedChains_filter (cs : List Chain) (n : Chain) (h : (cs.map Chain.Id).Nodup) :
    (mergedChains cs n).filter (fun c => decide (c.Id = n.Id)) = [n] := by
  induction cs with
  | nil => simp [mergedChains_nil]
  | cons c cs ih =>
    rw [mergedChains_cons]
    simp only [List.map_cons, List.nodup_cons] at h
    by_cases hc : c.Id = n.Id
    · simp only [hc, if_true]
      have hnone : ∀ d ∈ cs, ¬ d.Id = n.Id := by
        intro d hd hdn
        exact h.1 (List.mem_map.mpr ⟨d, hd, by rw [hdn, hc]⟩)
      simpa [List.filter_cons, List.filter_eq_nil_iff] using hnone
    · simp [List.filter_cons, hc, ih h.2]

theorem mergedChains_length (cs : List Chain) (n : Chain) :
    (mergedChains cs n).length = if ∃ c ∈ cs, c.Id = n.Id then cs.length else cs.length + 1 := by
  induction cs with
  | nil => simp [mergedChains_nil]
  | cons c cs ih =>
    rw [mergedChains_cons]
    by_cases hc : c.Id = n.Id
    · simp [hc]
    · simp only [hc, if_false, List.length_cons, ih, List.mem_cons, exists_eq_or_imp, false_or]
      split_ifs <;> rfl

theorem scanChain_mergedChains (cs : List Chain) (n : Chain) :
    scanChain n.Id (mergedChains cs n) = some n := by
  induction cs with
  | nil => simp [mergedChains_nil, scanChain]
  | cons c cs ih =>
    rw [mergedChains_cons]
    by_cases hc : c.Id = n.Id
    · simp [hc, scanChain]
    · simp [hc, scanChain, ih]

theorem scanChain_none (id : GoString) (cs : List Chain) (h : ∀ c ∈ cs, c.Id ≠ id) :
    scanChain id cs = none := by
  induction cs with
  | nil => rfl
  | cons c cs ih =>
    simp only [List.mem_cons, forall_eq_or_imp] at h
    simp [scanChain, h.1, ih h.2]

theorem mergedChains_absent (cs : List Chain) (n : Chain) (h : ∀ c ∈ cs, c.Id ≠ n.Id) :
    mergedChains cs n = cs ++ [n] := by
  induction cs with
  | nil => simp [mergedChains_nil]
  | cons c cs ih =>
    simp only [List.mem_cons, forall_eq_or_imp] at h
    rw [mergedChains_cons, if_neg h.1, ih h.2]
    rfl

theorem mergedChains_present (cs : List Chain) (n : Chain) (h : ∃ c ∈ cs, c.Id = n.Id) :
    ∃ i, i < cs.length ∧ (∃ c, cs[i]? = some c ∧ c.Id = n.Id) ∧
      (∀ j c, j < i → cs[j]? = some c → c.Id ≠ n.Id) ∧
      (mergedChains cs n).length = cs.length ∧
      (mergedChains cs n)[i]? = some n ∧
      ∀ j, j ≠ i → (mergedChains cs n)[j]? = cs[j]? := by
  induction cs with
  | nil => simp at h
  | cons c cs ih =>
    rw [mergedChains_cons]
    by_cases hc : c.Id = n.Id
    · refine ⟨0, by simp, ⟨c, by simp, hc⟩, by simp, by simp [hc], by simp [hc], ?_⟩
      intro j hj
      cases j with
      | zero => exact absurd rfl hj
      | succ j => simp [hc]
    · have h1 : ∃ c ∈ cs, c.Id = n.Id := by
        obtain ⟨d, hd, hdn⟩ := h
        rcases List.mem_cons.mp hd with rfl | hd
        · exact absurd hdn hc
        · exact ⟨d, hd, hdn⟩
      obtain ⟨i, hi, ⟨d, hd, hdn⟩, hbefore, hlen, hat, hother⟩ := ih h1
      refine ⟨i + 1, by simp [hi], ⟨d, by simpa using hd, hdn⟩, ?_, by simp [hc, hlen],
        by simpa [hc] using hat, ?_⟩
      · intro j e hj hje
        cases j with
        | zero =>
          simp at hje
          rw [← hje]
          exact hc
        | succ j =>
          exact hbefore j e (by omega) (by simpa using hje)
      · intro j hj
        cases j with
        | zero => simp [hc]
        | succ j =>
          have := hother j (by omega)
          simpa [hc] using this

/-- What getTransportChain does for a non-empty identifier once the stored
value has decoded to `cs` without an error. -/
theorem getTransportChain_decoded (J : Json) (stub : Stub) (B : GoString) (cs : List Chain)
    (hB : B ≠ []) (h : J.UnmarshalChains (stub.GetState (str "chains")).1 = (cs, none)) :
    getTransportChain J stub [B] =
      match scanChain B cs with
      | some chain => (Response.Success (J.MarshalChain chain), stub)
      | none => (Response.Success [], stub) := by
  simp only [getTransportChain, List.length_cons, List.length_nil, ne_eq, not_true_eq_false,
    if_false, List.getD_cons_zero, str_empty, hB, h]

theorem getTransportChain_failed (J : Json) (stub : Stub) (B e : GoString) (cs : List Chain)
    (hB : B ≠ []) (h : J.UnmarshalChains (stub.GetState (str "chains")).1 = (cs, some e)) :
    getTransportChain J stub [B] = (Response.Error e, stub) := by
  simp only [getTransportChain, List.length_cons, List.length_nil, ne_eq, not_true_eq_false,
    if_false, List.getD_cons_zero, str_empty, hB, h]

theorem setTransportChain_arity (J : Json) (stub : Stub) (args : List GoString)
    (h : args.length ≠ 2) :
    setTransportChain J stub args =
      (Response.Error (str "Incorrect number of arguments, expecting 3. Args given:" ++ Itoa args.length),
        stub) := by
  simp [setTransportChain, h]

theorem setTransportChain_guarded (J : Json) (stub : Stub) (A p : GoString)
    (h : (J.UnmarshalChains (stub.GetState (str "chains")).1).1.length ≠ 0 ∧
      (J.UnmarshalChains (stub.GetState (str "chains")).1).2 ≠ none) :
    (setTransportChain J stub [A, p]).2 = stub := by
  rcases hU : J.UnmarshalChains (stub.GetState (str "chains")).1 with ⟨chains, err⟩
  rw [hU] at h
  simp only [setTransportChain, List.length_cons, List.length_nil, ne_eq, not_true_eq_false,
    if_false, hU]
  rw [if_pos h]

theorem mem_mergedChains (cs : List Chain) (n c : Chain) (h : c ∈ mergedChains cs n) :
    c = n ∨ c ∈ cs := by
  induction cs with
  | nil =>
    rw [mergedChains_nil] at h
    exact Or.inl (List.mem_singleton.mp h)
  | cons d cs ih =>
    rw [mergedChains_cons] at h
    by_cases hd : d.Id = n.Id
    · rw [if_pos hd] at h
      rcases List.mem_cons.mp h with h | h
      · exact Or.inl h
      · exact Or.inr (List.mem_cons_of_mem _ h)
    · rw [if_neg hd] at h
      rcases List.mem_cons.mp h with h | h
      · exact Or.inr (h ▸ List.mem_cons_self _ _)
      · rcases ih h with h | h
        · exact Or.inl h
        · exact Or.inr (List.mem_cons_of_mem _ h)

theorem getTransportChain_arity (J : Json) (stub : Stub) (args : List GoString)
    (h : args.length ≠ 1) :
    getTransportChain J stub args =
      (Response.Error (str "Incorrect number of arguments, expecting 1. Args given:" ++ Itoa args.length),
        stub) := by
  simp [getTransportChain, h]

end TransportChain

namespace TransportChain

theorem map_coerceChain_of_fixed (W : List Chain) (h : ∀ c ∈ W, coerceChain c = c) :
    W.map coerceChain = W := by
  have e : W.map coerceChain = W.map (fun c => c) := List.map_congr_left h
  simpa using e

theorem validUTF8_Id_of_fixed (c : Chain) (h : coerceChain c = c) : ValidUTF8 c.Id :=
  congrArg Chain.Id h

theorem map_Id_coerceChain (W : List Chain) (h : ∀ c ∈ W, ValidUTF8 c.Id) :
    (W.map coerceChain).map Chain.Id = W.map Chain.Id := by
  rw [List.map_map]
  exact List.map_congr_left (fun c hc => h c hc)

/-- The record setTransportChain builds from valid UTF-8 arguments is read
back unchanged. -/
theorem newChain_fixed (A p : GoString) (hA : ValidUTF8 A) (hp : ValidUTF8 p) :
    coerceChain ⟨A, some (Split p (byte ','))⟩ = ⟨A, some (Split p (byte ','))⟩ :=
  coerceChain_of_valid _ hA (fun _ hl => Option.some.inj hl ▸ Split_valid p hp)

theorem mergedChains_fixed (cs : List Chain) (n : Chain) (hcs : ∀ c ∈ cs, coerceChain c = c)
    (hn : coerceChain n = n) : ∀ c ∈ mergedChains cs n, coerceChain c = c := by
  intro c hc
  rcases mem_mergedChains cs n c hc with rfl | hc
  · exact hn
  · exact hcs c hc

/-- The array the load step yields: the stored array, or the empty one when
the host fails the read. Its strings are valid UTF-8. -/
theorem loaded_cases (J : Json) (hJ : JsonLaws J) (stub : Stub) :
    ((J.UnmarshalChains (stub.GetState (str "chains")).1).1 = storedChains J stub ∨
      (J.UnmarshalChains (stub.GetState (str "chains")).1).1 = []) ∧
    ∀ c ∈ (J.UnmarshalChains (stub.GetState (str "chains")).1).1, coerceChain c = c := by
  refine ⟨?_, hJ.2.1 _⟩
  unfold Stub.GetState
  cases hg : stub.getErr (str "chains") with
  | some e => exact Or.inr hJ.2.2
  | none => exact Or.inl rfl

theorem storedChains_PutState (J : Json) (hJ : JsonLaws J) (stub : Stub) (W : List Chain)
    (hp : stub.putErr (str "chains") = none) :
    storedChains J (stub.PutState (str "chains") (J.MarshalChains W)).1 = W.map coerceChain := by
  simp [storedChains, PutState_state _ _ _ hp, hJ.1]

theorem setTransportChain_step_nodup (J : Json) (hJ : JsonLaws J) (stub : Stub)
    (args : List GoString) (h : ((storedChains J stub).map Chain.Id).Nodup)
    (hargs : args.length = 2 → ValidUTF8 (args.getD 0 [])) :
    ((storedChains J (setTransportChain J stub args).2).map Chain.Id).Nodup := by
  by_cases hlen : args.length = 2
  · obtain ⟨A, p, rfl⟩ : ∃ A p, args = [A, p] := by
      match args, hlen with
      | [A, p], _ => exact ⟨A, p, rfl⟩
    have hA : ValidUTF8 A := hargs rfl
    obtain ⟨hcases, hfixed⟩ := loaded_cases J hJ stub
    have hl : ((J.UnmarshalChains (stub.GetState (str "chains")).1).1.map Chain.Id).Nodup := by
      rcases hcases with e | e
      · rw [e]; exact h
      · rw [e]; exact List.nodup_nil
    by_cases hg : (J.UnmarshalChains (stub.GetState (str "chains")).1).1.length ≠ 0 ∧
        (J.UnmarshalChains (stub.GetState (str "chains")).1).2 ≠ none
    · rw [setTransportChain_guarded J stub A p hg]
      exact h
    · have hloads : Loads J stub (J.UnmarshalChains (stub.GetState (str "chains")).1).1 := by
        refine ⟨rfl, ?_⟩
        by_cases h0 : (J.UnmarshalChains (stub.GetState (str "chains")).1).1 = []
        · exact Or.inl h0
        · right
          by_contra hne
          exact hg ⟨by simpa using h0, hne⟩
      rw [setTransportChain_loaded J stub A p _ hloads]
      cases hp : stub.putErr (str "chains") with
      | some e =>
        simp only [PutState_failed _ _ _ e hp]
        exact h
      | none =>
        rw [storedChains_PutState J hJ stub _ hp, map_Id_coerceChain]
        · exact mergedChains_ids_nodup _ _ hl
        · intro c hc
          rcases mem_mergedChains _ _ c hc with rfl | hc
          · exact hA
          · exact validUTF8_Id_of_fixed c (hfixed c hc)
  · rw [setTransportChain_arity J stub args hlen]
    exact h

theorem runSets_nodup (J : Json) (hJ : JsonLaws J) (calls : List (List GoString)) :
    ∀ stub : Stub, ((storedChains J stub).map Chain.Id).Nodup →
      (∀ args ∈ calls, args.length = 2 → ValidUTF8 (args.getD 0 [])) →
      ((storedChains J (runSets J stub calls)).map Chain.Id).Nodup := by
  induction calls with
  | nil => intro stub h _; exact h
  | cons args calls ih =>
    intro stub h hcalls
    simp only [List.mem_cons, forall_eq_or_imp] at hcalls
    exact ih _ (setTransportChain_step_nodup J hJ stub args h hcalls.1) hcalls.2

/-- What the ledger holds after setTransportChain with valid UTF-8 arguments,
when the host serves the read and the write of "chains": the written array is
read back as it was written. -/
theorem loads_after_set (J : Json) (hJ : JsonLaws J) (stub : Stub) (W : List Chain)
    (hput : stub.putErr (str "chains") = none) (hget : stub.getErr (str "chains") = none) :
    J.UnmarshalChains ((stub.PutState (str "chains") (J.MarshalChains W)).1.GetState
      (str "chains")).1 = (W.map coerceChain, none) := by
  rw [GetState_after_PutState stub _ _ hput hget]
  exact hJ.1 W

theorem loads_fixed (J : Json) (hJ : JsonLaws J) (stub : Stub) (cs : List Chain)
    (hload : Loads J stub cs) : ∀ c ∈ cs, coerceChain c = c := by
  intro c hc
  rw [← hload.1] at hc
  exact hJ.2.1 _ c hc

end TransportChain

namespace Keystore

theorem addOrganisation_arity (J : Json) (stub : Stub) (args : List GoString)
    (h : args.length ≠ 2) :
    addOrganisation J stub args =
      (Response.Error
        (str "Incorrect number of arguments, expecting 2. Args given:" ++ Itoa args.length),
        stub) := by
  simp [addOrganisation, h]

theorem getOrganisation_arity (stub : Stub) (args : List GoString) (h : args.length ≠ 1) :
    getOrganisation stub args =
      (Response.Error
        (str "Incorrect number of arguments, expecting 1. Args given:" ++ Itoa args.length),
        stub) := by
  simp [getOrganisation, h]

theorem addOrganisation_two (J : Json) (stub : Stub) (id pk : GoString) :
    addOrganisation J stub [id, pk] =
      (Response.Success (J.MarshalOrganisation ⟨id, pk⟩),
        (stub.PutState id (J.MarshalOrganisation ⟨id, pk⟩)).1) := by
  simp [addOrganisation]

theorem getOrganisation_stored (stub : Stub) (key value : GoString)
    (h : stub.GetState key = (value, none)) :
    getOrganisation stub [key] = (Response.Success value, stub) := by
  simp [getOrganisation, h]

theorem Invoke_unknown_Keystore (J : Json) (stub : Stub) (function : GoString)
    (args : List GoString)
    (h1 : function ≠ str "addOrganisation") (h2 : function ≠ str "getOrganisation") :
    Invoke J stub function args
      = (Response.Error (str "Invalid Smart Contract function name."), stub) := by
  simp [Invoke, h1, h2]

end Keystore

namespace TransportChain

theorem Invoke_unknown_TransportChain (J : Json) (stub : Stub) (function : GoString)
    (args : List GoString)
    (h1 : function ≠ str "setTransportChain") (h2 : function ≠ str "getTransportChain") :
    Invoke J stub function args
      = (Response.Error (str "Invalid Smart Contract function name."), stub) := by
  simp [Invoke, h1, h2]

end TransportChain

namespace UBL

theorem addMessage_arity (DecodeString : GoString → Except GoString GoString) (J : Json)
    (stub : Stub) (args : List GoString) (h : args.length ≠ 2) :
    addMessage DecodeString J stub args =
      (Response.Error
        (str "Incorrect number of arguments, expecting 3. Args given:" ++ Itoa args.length),
        stub) := by
  simp [addMessage, h]

theorem getMessage_arity (stub : Stub) (args : List GoString) (h : args.length ≠ 1) :
    getMessage stub args =
      (Response.Error
        (str "Incorrect number of arguments, expecting 1. Args given:" ++ Itoa args.length),
        stub) := by
  simp [getMessage, h]

theorem addMessage_valid (DecodeString : GoString → Except GoString GoString) (J : Json)
    (stub : Stub) (data b k : GoString) (m : Message) (hdec : DecodeString data = Except.ok b)
    (hjson : J.UnmarshalMessage b = Except.ok m) :
    addMessage DecodeString J stub [data, k] =
      (Response.Success (str "Message succesfully saved"), (stub.PutState k b).1) := by
  simp [addMessage, hdec, hjson]

theorem getMessage_stored (stub : Stub) (key value : GoString)
    (h : stub.GetState key = (value, none)) :
    getMessage stub [key] = (Response.Success value, stub) := by
  simp [getMessage, h]

theorem Invoke_unknown_UBL (DecodeString : GoString → Except GoString GoString) (J : Json)
    (stub : Stub) (function : GoString) (args : List GoString)
    (h1 : function ≠ str "addMessage") (h2 : function ≠ str "getMessage") :
    Invoke DecodeString J stub function args =
      (Response.Error (str "Invalid Smart Contract function name:" ++ function), stub) := by
  simp [Invoke, h1, h2]

end UBL

/-- With a failing host put the three write handlers return the success they
return when the put succeeds, and the ledger stays as it was. -/
theorem put_failure_not_reported (DecodeString : GoString → Except GoString GoString) (J : Json)
    (stub1 stub2 stub3 : Stub) (id pk A p data b k e1 e2 e3 : GoString) (cs : List Chain)
    (m : Message)
    (h1 : stub1.putErr id = some e1)
    (hload : TransportChain.Loads J stub2 cs) (h2 : stub2.putErr (str "chains") = some e2)
    (hdec : DecodeString data = Except.ok b) (hjson : J.UnmarshalMessage b = Except.ok m)
    (h3 : stub3.putErr k = some e3) :
    Keystore.addOrganisation J stub1 [id, pk]
        = (Response.Success (J.MarshalOrganisation ⟨id, pk⟩), stub1) ∧
      TransportChain.setTransportChain J stub2 [A, p]
        = (Response.Success (J.MarshalChain ⟨A, some (Split p (byte ','))⟩), stub2) ∧
      UBL.addMessage DecodeString J stub3 [data, k]
        = (Response.Success (str "Message succesfully saved"), stub3) := by
  refine ⟨?_, ?_, ?_⟩
  · rw [Keystore.addOrganisation_two, PutState_failed _ _ _ e1 h1]
  · rw [TransportChain.setTransportChain_loaded J stub2 A p cs hload,
      PutState_failed _ _ _ e2 h2]
  · rw [UBL.addMessage_valid DecodeString J stub3 data b k m hdec hjson,
      PutState_failed _ _ _ e3 h3]

/-! ## Claims -/

/-- C1 (counterexample). Two setTransportChain calls for the identifier that is
the single byte 0xFF, which is not valid UTF-8, leave an array with two
entries of one identifier (the encoding of U+FFFD) under "chains". -/
theorem duplicate_ids_after_invalid_id :
    TransportChain.storedChains goJson
        (TransportChain.runSets goJson emptyStub [[[255], str "x"], [[255], str "y"]])
      = [⟨str "\uFFFD", some [str "x"]⟩, ⟨str "\uFFFD", some [str "y"]⟩] ∧
    ¬ ((TransportChain.storedChains goJson
        (TransportChain.runSets goJson emptyStub
          [[[255], str "x"], [[255], str "y"]])).map Chain.Id).Nodup := by
  constructor <;> decide

/-- C1 (amended). Uniqueness invariant of the stored chain array for
identifiers that are valid UTF-8. In every ledger state reached from a ledger
with nothing stored under "chains" by any sequence of setTransportChain calls
in which every call with two arguments has an identifier that is valid UTF-8
(any second argument, any call with another argument count, whether or not the
host reads and puts succeed), the array stored under "chains" has pairwise
distinct identifiers; and a single such call keeps the identifiers of the
stored array pairwise distinct. -/
theorem chains_ids_unique (J : Json) (hJ : JsonLaws J) :
    (∀ (stub : Stub) (calls : List (List GoString)), stub.state (str "chains") = none →
      (∀ args ∈ calls, args.length = 2 → ValidUTF8 (args.getD 0 [])) →
      ((TransportChain.storedChains J (TransportChain.runSets J stub calls)).map Chain.Id).Nodup) ∧
    (∀ (stub : Stub) (args : List GoString),
      ((TransportChain.storedChains J stub).map Chain.Id).Nodup →
      (args.length = 2 → ValidUTF8 (args.getD 0 [])) →
      ((TransportChain.storedChains J
        (TransportChain.setTransportChain J stub args).2).map Chain.Id).Nodup) := by
  refine ⟨?_, fun stub args h hv => TransportChain.setTransportChain_step_nodup J hJ stub args h hv⟩
  intro stub calls h0 hcalls
  apply TransportChain.runSets_nodup J hJ calls stub _ hcalls
  simp [TransportChain.storedChains, h0, hJ.2.2]

/-- C1 (amended) at a concrete input: five calls on the untouched ledger with
the executable library instance, the second participant string not valid
UTF-8, the last two with a wrong argument count; the stored array is evaluated
as well. -/
theorem chains_ids_unique_witness :
    ((TransportChain.storedChains goJson
        (TransportChain.runSets goJson emptyStub
          [[str "A", str "x,y"], [str "B", [255]], [str "A", str "x,y,z"],
            [str "one argument"], [[255]]])).map Chain.Id).Nodup ∧
      TransportChain.storedChains goJson
        (TransportChain.runSets goJson emptyStub
          [[str "A", str "x,y"], [str "B", [255]], [str "A", str "x,y,z"],
            [str "one argument"], [[255]]])
        = [⟨str "A", some [str "x", str "y", str "z"]⟩, ⟨str "B", some [str "\uFFFD"]⟩] :=
  ⟨(chains_ids_unique goJson goJson_laws).1 emptyStub _ rfl (by decide), by decide⟩

/-- C2 (counterexample). For the identifier that is the single byte 0xFF,
which is not valid UTF-8, setTransportChain succeeds and the getTransportChain
that follows returns an empty payload, not the payload set returned. For the
identifier "A" and the participant string that is the single byte 0xFF set
returns the array with the escape of U+FFFD and get the array with the
character U+FFFD itself: again not the payload set returned. -/
theorem get_after_set_invalid_id :
    (TransportChain.setTransportChain goJson emptyStub [[255], str "x,y"]).1
      = Response.Success (str "\x7b\"id\":\"\\ufffd\",\"participants\":[\"x\",\"y\"]\x7d") ∧
    (TransportChain.getTransportChain goJson
        (TransportChain.setTransportChain goJson emptyStub [[255], str "x,y"]).2 [[255]]).1
      = Response.Success [] ∧
    (TransportChain.getTransportChain goJson
        (TransportChain.setTransportChain goJson emptyStub [[255], str "x,y"]).2 [[255]]).1
      ≠ (TransportChain.setTransportChain goJson emptyStub [[255], str "x,y"]).1 ∧
    (TransportChain.setTransportChain goJson emptyStub [str "A", [255]]).1
      = Response.Success (str "\x7b\"id\":\"A\",\"participants\":[\"\\ufffd\"]\x7d") ∧
    (TransportChain.getTransportChain goJson
        (TransportChain.setTransportChain goJson emptyStub [str "A", [255]]).2 [str "A"]).1
      = Response.Success (str "\x7b\"id\":\"A\",\"participants\":[\"\uFFFD\"]\x7d") ∧
    (TransportChain.getTransportChain goJson
        (TransportChain.setTransportChain goJson emptyStub [str "A", [255]]).2 [str "A"]).1
      ≠ (TransportChain.setTransportChain goJson emptyStub [str "A", [255]]).1 := by
  refine ⟨?_, ?_, ?_, ?_, ?_, ?_⟩ <;> decide

/-- C2 (amended). Set/get round trip of TransportChain for arguments that are
valid UTF-8. For a non-empty identifier `A` and a string `p`, both valid
UTF-8, and a ledger whose "chains" value loads as the array `cs` (absent, or a
well-formed array), with the host serving the read and the write of "chains":
setTransportChain([A, p]) succeeds with the JSON of the record
`(A, Split p ",")`, and getTransportChain([A]) on the resulting ledger returns
exactly that payload. The split joins back to `p` with commas and has one
piece more than `p` has commas (nothing trimmed, nothing dropped); the empty
input gives the one-element list of the empty string. -/
theorem set_get_round_trip (J : Json) (hJ : JsonLaws J) (stub : Stub) (A p : GoString)
    (cs : List Chain) (hA : A ≠ []) (hAv : ValidUTF8 A) (hpv : ValidUTF8 p)
    (hload : TransportChain.Loads J stub cs)
    (hput : stub.putErr (str "chains") = none) (hget : stub.getErr (str "chains") = none) :
    (TransportChain.setTransportChain J stub [A, p]).1
        = Response.Success (J.MarshalChain ⟨A, some (Split p (byte ','))⟩) ∧
      (TransportChain.getTransportChain J (TransportChain.setTransportChain J stub [A, p]).2 [A]).1
        = (TransportChain.setTransportChain J stub [A, p]).1 ∧
      List.intercalate [byte ','] (Split p (byte ',')) = p ∧
      (Split p (byte ',')).length = p.count (byte ',') + 1 ∧
      Split [] (byte ',') = [[]] := by
  rw [TransportChain.setTransportChain_loaded J stub A p cs hload]
  refine ⟨rfl, ?_, splitBytes_join _ _, splitBytes_length _ _, rfl⟩
  have hfix := TransportChain.mergedChains_fixed cs ⟨A, some (Split p (byte ','))⟩
    (TransportChain.loads_fixed J hJ stub cs hload) (TransportChain.newChain_fixed A p hAv hpv)
  have hdec := TransportChain.loads_after_set J hJ stub
    (TransportChain.mergedChains cs ⟨A, some (Split p (byte ','))⟩) hput hget
  rw [TransportChain.map_coerceChain_of_fixed _ hfix] at hdec
  rw [TransportChain.getTransportChain_decoded J _ A _ hA hdec]
  have hs := TransportChain.scanChain_mergedChains cs ⟨A, some (Split p (byte ','))⟩
  simp only at hs
  rw [hs]

/-- C2 (amended) at a concrete input: chain "A" set and read back on a ledger
that holds chain "B". -/
theorem set_get_round_trip_witness :
    (TransportChain.setTransportChain goJson oneChainStub [str "A", str "x,y"]).1
        = Response.Success (str "\x7b\"id\":\"A\",\"participants\":[\"x\",\"y\"]\x7d") ∧
      (TransportChain.getTransportChain goJson
          (TransportChain.setTransportChain goJson oneChainStub [str "A", str "x,y"]).2
          [str "A"]).1
        = Response.Success (str "\x7b\"id\":\"A\",\"participants\":[\"x\",\"y\"]\x7d") := by
  have h := set_get_round_trip goJson goJson_laws oneChainStub (str "A") (str "x,y")
    [⟨str "B", some [str "z"]⟩] (by decide) (validUTF8_str _) (validUTF8_str _)
    (TransportChain.Loads_stored goJson oneChainStub _ _ rfl rfl (by decide)) rfl rfl
  have e : goJson.MarshalChain ⟨str "A", some (Split (str "x,y") (byte ','))⟩
      = str "\x7b\"id\":\"A\",\"participants\":[\"x\",\"y\"]\x7d" := by decide
  exact ⟨h.1.trans (congrArg Response.Success e),
    (h.2.1.trans h.1).trans (congrArg Response.Success e)⟩

/-- C3 (the code on the failing input). On the ledger where nothing has been
stored, getTransportChain(["B"]) is a failure carrying the decoder's error,
not an empty success. On the same ledger setTransportChain, whose load step
reads the same absent value, succeeds, and getTransportChain with the empty
identifier succeeds with an empty payload. -/
theorem get_on_empty_ledger_fails :
    (TransportChain.getTransportChain goJson emptyStub [str "B"]).1
        = Response.Error (str "unexpected end of JSON input") ∧
      (TransportChain.getTransportChain goJson emptyStub [str "B"]).1 ≠ Response.Success [] ∧
      (TransportChain.setTransportChain goJson emptyStub [str "B", str "x"]).1
        = Response.Success (str "\x7b\"id\":\"B\",\"participants\":[\"x\"]\x7d") ∧
      (TransportChain.getTransportChain goJson emptyStub [str ""]).1 = Response.Success [] := by
  refine ⟨?_, ?_, ?_, ?_⟩ <;> decide

/-- C4 (counterexample). After two setTransportChain calls for the identifier
that is the single byte 0xFF, which is not valid UTF-8, the stored array holds
both records, the one of the first call included, and no entry with that
identifier. After two calls for the identifier "A", the second with the
participant string that is the single byte 0xFF, the participants of the
stored entry are not the split of that string. -/
theorem both_records_after_invalid_id :
    TransportChain.storedChains goJson
        (TransportChain.setTransportChain goJson
          (TransportChain.setTransportChain goJson emptyStub [[255], str "x,y"]).2
          [[255], str "x,y,z"]).2
      = [⟨str "\uFFFD", some [str "x", str "y"]⟩, ⟨str "\uFFFD", some [str "x", str "y", str "z"]⟩] ∧
    (TransportChain.storedChains goJson
        (TransportChain.setTransportChain goJson
          (TransportChain.setTransportChain goJson emptyStub [[255], str "x,y"]).2
          [[255], str "x,y,z"]).2).filter (fun c => decide (c.Id = [255])) = [] ∧
    TransportChain.storedChains goJson
        (TransportChain.setTransportChain goJson
          (TransportChain.setTransportChain goJson emptyStub [str "A", str "x,y"]).2
          [str "A", [255]]).2
      = [⟨str "A", some [str "\uFFFD"]⟩] ∧
    Split [255] (byte ',') ≠ [str "\uFFFD"] := by
  refine ⟨?_, ?_, ?_, ?_⟩ <;> decide

/-- C4 (amended). Last write wins for an identifier `A` and a second string
`p2` that are valid UTF-8. From a ledger whose "chains" value loads as an
array `cs` with pairwise distinct identifiers (absent, or a well-formed
array), with the host serving reads and writes of "chains": after
setTransportChain([A, p1]) and then setTransportChain([A, p2]) the stored
array `W` has the record `(A, Split p2 ",")` as its only entry with identifier
`A`, and as many entries as the array written by the first call. -/
theorem set_twice_last_write_wins (J : Json) (hJ : JsonLaws J) (stub : Stub)
    (A p1 p2 : GoString) (cs : List Chain)
    (hAv : ValidUTF8 A) (hp2 : ValidUTF8 p2)
    (hload : TransportChain.Loads J stub cs) (hnd : (cs.map Chain.Id).Nodup)
    (hput : stub.putErr (str "chains") = none) (hget : stub.getErr (str "chains") = none) :
    ∃ W, (TransportChain.setTransportChain J
        (TransportChain.setTransportChain J stub [A, p1]).2 [A, p2]).2.state (str "chains")
        = some (J.MarshalChains W) ∧
      TransportChain.storedChains J (TransportChain.setTransportChain J
        (TransportChain.setTransportChain J stub [A, p1]).2 [A, p2]).2 = W ∧
      W.filter (fun c => decide (c.Id = A)) = [⟨A, some (Split p2 (byte ','))⟩] ∧
      W.length = (TransportChain.mergedChains cs ⟨A, some (Split p1 (byte ','))⟩).length := by
  have hcs := TransportChain.loads_fixed J hJ stub cs hload
  have hdec := TransportChain.loads_after_set J hJ stub
    (TransportChain.mergedChains cs ⟨A, some (Split p1 (byte ','))⟩) hput hget
  have hload2 : TransportChain.Loads J
      (stub.PutState (str "chains")
        (J.MarshalChains (TransportChain.mergedChains cs ⟨A, some (Split p1 (byte ','))⟩))).1
      ((TransportChain.mergedChains cs ⟨A, some (Split p1 (byte ','))⟩).map coerceChain) := by
    unfold TransportChain.Loads
    rw [hdec]
    exact ⟨rfl, Or.inr rfl⟩
  have hput2 : (stub.PutState (str "chains")
      (J.MarshalChains (TransportChain.mergedChains cs ⟨A, some (Split p1 (byte ','))⟩))).1.putErr
        (str "chains") = none := by
    rw [PutState_putErr]
    exact hput
  -- the identifiers of the array written by the first call are valid and distinct
  have hids1 : ∀ c ∈ TransportChain.mergedChains cs ⟨A, some (Split p1 (byte ','))⟩, ValidUTF8 c.Id := by
    intro c hc
    rcases TransportChain.mem_mergedChains _ _ c hc with rfl | hc
    · exact hAv
    · exact TransportChain.validUTF8_Id_of_fixed c (hcs c hc)
  have hnd1 : (((TransportChain.mergedChains cs ⟨A, some (Split p1 (byte ','))⟩).map coerceChain).map
      Chain.Id).Nodup := by
    rw [TransportChain.map_Id_coerceChain _ hids1]
    exact TransportChain.mergedChains_ids_nodup cs _ hnd
  have hfix2 : ∀ c ∈ TransportChain.mergedChains
      ((TransportChain.mergedChains cs ⟨A, some (Split p1 (byte ','))⟩).map coerceChain)
      ⟨A, some (Split p2 (byte ','))⟩, coerceChain c = c := by
    apply TransportChain.mergedChains_fixed
    · intro c hc
      obtain ⟨d, _, rfl⟩ := List.mem_map.mp hc
      exact coerceChain_idem d
    · exact TransportChain.newChain_fixed A p2 hAv hp2
  refine ⟨TransportChain.mergedChains
    ((TransportChain.mergedChains cs ⟨A, some (Split p1 (byte ','))⟩).map coerceChain)
    ⟨A, some (Split p2 (byte ','))⟩, ?_, ?_, ?_, ?_⟩
  · rw [TransportChain.setTransportChain_loaded J stub A p1 cs hload,
      TransportChain.setTransportChain_loaded J _ A p2 _ hload2]
    exact PutState_state _ _ _ hput2
  · rw [TransportChain.setTransportChain_loaded J stub A p1 cs hload,
      TransportChain.setTransportChain_loaded J _ A p2 _ hload2,
      TransportChain.storedChains_PutState J hJ _ _ hput2,
      TransportChain.map_coerceChain_of_fixed _ hfix2]
  · exact TransportChain.mergedChains_filter _ ⟨A, some (Split p2 (byte ','))⟩ hnd1
  · rw [TransportChain.mergedChains_length, if_pos, List.length_map]
    refine ⟨coerceChain ⟨A, some (Split p1 (byte ','))⟩, List.mem_map.mpr ⟨_, ?_, rfl⟩, hAv⟩
    have hf := TransportChain.mergedChains_filter cs ⟨A, some (Split p1 (byte ','))⟩ hnd
    have hm : (⟨A, some (Split p1 (byte ','))⟩ : Chain) ∈
        (TransportChain.mergedChains cs ⟨A, some (Split p1 (byte ','))⟩).filter
          (fun c => decide (c.Id = A)) := by
      rw [hf]
      exact List.mem_singleton.mpr rfl
    exact (List.mem_filter.mp hm).1

/-- C4 (amended) at a concrete input: chain "A" set twice on a ledger that
holds chain "B"; the stored array and the stored text are evaluated. -/
theorem set_twice_last_write_wins_witness :
    (∃ W, (TransportChain.setTransportChain goJson
        (TransportChain.setTransportChain goJson oneChainStub [str "A", str "x,y"]).2
        [str "A", str "x,y,z"]).2.state (str "chains") = some (goJson.MarshalChains W) ∧
      TransportChain.storedChains goJson (TransportChain.setTransportChain goJson
        (TransportChain.setTransportChain goJson oneChainStub [str "A", str "x,y"]).2
        [str "A", str "x,y,z"]).2 = W ∧
      W.filter (fun c => decide (c.Id = str "A"))
        = [⟨str "A", some (Split (str "x,y,z") (byte ','))⟩] ∧
      W.length = (TransportChain.mergedChains [⟨str "B", some [str "z"]⟩]
        ⟨str "A", some (Split (str "x,y") (byte ','))⟩).length) ∧
    (TransportChain.setTransportChain goJson
        (TransportChain.setTransportChain goJson oneChainStub [str "A", str "x,y"]).2
        [str "A", str "x,y,z"]).2.state (str "chains")
      = some (str "[\x7b\"id\":\"B\",\"participants\":[\"z\"]\x7d,\x7b\"id\":\"A\",\"participants\":[\"x\",\"y\",\"z\"]\x7d]") :=
  ⟨set_twice_last_write_wins goJson goJson_laws oneChainStub (str "A") (str "x,y") (str "x,y,z")
      [⟨str "B", some [str "z"]⟩] (validUTF8_str _) (validUTF8_str _)
      (TransportChain.Loads_stored goJson oneChainStub _ _ rfl rfl (by decide))
      (by decide) rfl rfl,
    by decide⟩

/-- C5. Replace-or-append. When the "chains" value loads as the array `cs`
and the host put succeeds, setTransportChain([A, p]) writes the serialisation
of an array `W` such that: if some entry of `cs` has identifier `A`, then for
the first index `i` of such an entry `W` has the length of `cs`, holds the new
record at `i` and agrees with `cs` at every other position; otherwise `W` is
`cs` with the new record appended. -/
theorem set_replaces_or_appends (J : Json) (stub : Stub) (A p : GoString) (cs : List Chain)
    (hload : TransportChain.Loads J stub cs) (hput : stub.putErr (str "chains") = none) :
    (TransportChain.setTransportChain J stub [A, p]).2.state (str "chains")
      = some (J.MarshalChains (TransportChain.mergedChains cs ⟨A, some (Split p (byte ','))⟩)) ∧
    ((∃ c ∈ cs, c.Id = A) →
      ∃ i, i < cs.length ∧ (∃ c, cs[i]? = some c ∧ c.Id = A) ∧
        (∀ j c, j < i → cs[j]? = some c → c.Id ≠ A) ∧
        (TransportChain.mergedChains cs ⟨A, some (Split p (byte ','))⟩).length = cs.length ∧
        (TransportChain.mergedChains cs ⟨A, some (Split p (byte ','))⟩)[i]?
          = some ⟨A, some (Split p (byte ','))⟩ ∧
        ∀ j, j ≠ i → (TransportChain.mergedChains cs ⟨A, some (Split p (byte ','))⟩)[j]? = cs[j]?) ∧
    ((∀ c ∈ cs, c.Id ≠ A) →
      TransportChain.mergedChains cs ⟨A, some (Split p (byte ','))⟩
        = cs ++ [⟨A, some (Split p (byte ','))⟩]) := by
  refine ⟨?_, ?_, ?_⟩
  · rw [TransportChain.setTransportChain_loaded J stub A p cs hload]
    exact PutState_state _ _ _ hput
  · intro h
    exact TransportChain.mergedChains_present cs ⟨A, some (Split p (byte ','))⟩ h
  · intro h
    exact TransportChain.mergedChains_absent cs ⟨A, some (Split p (byte ','))⟩ h

/-- C5 at concrete inputs: a replacement of chain "B" and an append of chain
"A" on a ledger that holds chain "B". -/
theorem set_replaces_or_appends_witness :
    (TransportChain.setTransportChain goJson oneChainStub [str "B", str "x"]).2.state
        (str "chains")
        = some (str "[\x7b\"id\":\"B\",\"participants\":[\"x\"]\x7d]") ∧
      (TransportChain.setTransportChain goJson oneChainStub [str "A", str "x"]).2.state
        (str "chains")
        = some (str "[\x7b\"id\":\"B\",\"participants\":[\"z\"]\x7d,\x7b\"id\":\"A\",\"participants\":[\"x\"]\x7d]") := by
  have hB := set_replaces_or_appends goJson oneChainStub (str "B") (str "x")
    [⟨str "B", some [str "z"]⟩] ⟨by decide, Or.inr (by decide)⟩ rfl
  have hA := set_replaces_or_appends goJson oneChainStub (str "A") (str "x")
    [⟨str "B", some [str "z"]⟩] ⟨by decide, Or.inr (by decide)⟩ rfl
  exact ⟨hB.1.trans (by decide), hA.1.trans (by decide)⟩

/-- C6 (the code on the failing inputs). Called with no arguments,
setTransportChain and addMessage, which require two, fail and leave the ledger
as it is, but their message names the count 3 and the text of the message does
not contain the required count 2. The four other handlers name the count they
require. -/
theorem arity_message_wrong_count (DecodeString : GoString → Except GoString GoString)
    (J : Json) (stub : Stub) :
    TransportChain.setTransportChain J stub []
        = (Response.Error (str "Incorrect number of arguments, expecting 3. Args given:0"),
          stub) ∧
      UBL.addMessage DecodeString J stub []
        = (Response.Error (str "Incorrect number of arguments, expecting 3. Args given:0"),
          stub) ∧
      ¬ Contains (str "Incorrect number of arguments, expecting 3. Args given:0") (str "2") ∧
      Keystore.addOrganisation J stub []
        = (Response.Error (str "Incorrect number of arguments, expecting 2. Args given:0"),
          stub) ∧
      Keystore.getOrganisation stub []
        = (Response.Error (str "Incorrect number of arguments, expecting 1. Args given:0"),
          stub) ∧
      TransportChain.getTransportChain J stub []
        = (Response.Error (str "Incorrect number of arguments, expecting 1. Args given:0"),
          stub) ∧
      UBL.getMessage stub []
        = (Response.Error (str "Incorrect number of arguments, expecting 1. Args given:0"),
          stub) := by
  have e3 : str "Incorrect number of arguments, expecting 3. Args given:" ++ Itoa 0
      = str "Incorrect number of arguments, expecting 3. Args given:0" := by decide
  have e2 : str "Incorrect number of arguments, expecting 2. Args given:" ++ Itoa 0
      = str "Incorrect number of arguments, expecting 2. Args given:0" := by decide
  have e1 : str "Incorrect number of arguments, expecting 1. Args given:" ++ Itoa 0
      = str "Incorrect number of arguments, expecting 1. Args given:0" := by decide
  refine ⟨?_, ?_, by decide, ?_, ?_, ?_, ?_⟩
  · rw [TransportChain.setTransportChain_arity J stub [] (by decide)]
    exact congrArg (fun t => (Response.Error t, stub)) e3
  · rw [UBL.addMessage_arity DecodeString J stub [] (by decide)]
    exact congrArg (fun t => (Response.Error t, stub)) e3
  · rw [Keystore.addOrganisation_arity J stub [] (by decide)]
    exact congrArg (fun t => (Response.Error t, stub)) e2
  · rw [Keystore.getOrganisation_arity stub [] (by decide)]
    exact congrArg (fun t => (Response.Error t, stub)) e1
  · rw [TransportChain.getTransportChain_arity J stub [] (by decide)]
    exact congrArg (fun t => (Response.Error t, stub)) e1
  · rw [UBL.getMessage_arity stub [] (by decide)]
    exact congrArg (fun t => (Response.Error t, stub)) e1

/-- C7. Validate-but-store-raw round trip of UBL. When `data` is the base64
text of `b`, `b` decodes into the Message shape, and the host serves the write
and the read of key `k`: addMessage([data, k]) succeeds with the fixed payload
"Message succesfully saved", the value stored under `k` is `b` itself, and
getMessage([k]) on the resulting ledger returns exactly `b`. -/
theorem add_get_message_round_trip (DecodeString : GoString → Except GoString GoString)
    (J : Json) (stub : Stub) (data b k : GoString) (m : Message)
    (hdec : DecodeString data = Except.ok b) (hjson : J.UnmarshalMessage b = Except.ok m)
    (hput : stub.putErr k = none) (hget : stub.getErr k = none) :
    (UBL.addMessage DecodeString J stub [data, k]).1
        = Response.Success (str "Message succesfully saved") ∧
      (UBL.addMessage DecodeString J stub [data, k]).2.state k = some b ∧
      (UBL.getMessage (UBL.addMessage DecodeString J stub [data, k]).2 [k]).1
        = Response.Success b := by
  rw [UBL.addMessage_valid DecodeString J stub data b k m hdec hjson]
  refine ⟨rfl, PutState_state _ _ _ hput, ?_⟩
  rw [UBL.getMessage_stored _ k b (GetState_after_PutState stub k b hput hget)]

/-- C7 at a concrete input: the base64 text of a one-field message stored under
"key1" and read back. -/
theorem add_get_message_round_trip_witness :
    (UBL.addMessage StdEncoding_DecodeString goJson emptyStub
        [str "eyJkb2N1bWVudElEIjoiRDEifQ==", str "key1"]).1
        = Response.Success (str "Message succesfully saved") ∧
      (UBL.getMessage (UBL.addMessage StdEncoding_DecodeString goJson emptyStub
        [str "eyJkb2N1bWVudElEIjoiRDEifQ==", str "key1"]).2 [str "key1"]).1
        = Response.Success (str "\x7b\"documentID\":\"D1\"\x7d") := by
  have h := add_get_message_round_trip StdEncoding_DecodeString goJson emptyStub
    (str "eyJkb2N1bWVudElEIjoiRDEifQ==") (str "\x7b\"documentID\":\"D1\"\x7d") (str "key1")
    { GoJson.zeroMessage with DocumentID := str "D1" } rfl rfl rfl rfl
  exact ⟨h.1, h.2.2⟩

/-- C8. Add/get round trip of Keystore. When the host serves the write and the
read of key `id`: addOrganisation([id, pk]) returns the JSON of the record
`(id, pk)` and stores it under `id`; getOrganisation([id]) on the resulting
ledger returns the same payload; and after a second addOrganisation([id, pk2])
getOrganisation([id]) returns the JSON of `(id, pk2)`. -/
theorem add_get_organisation_round_trip (J : Json) (stub : Stub) (id pk pk2 : GoString)
    (hput : stub.putErr id = none) (hget : stub.getErr id = none) :
    (Keystore.addOrganisation J stub [id, pk]).1
        = Response.Success (J.MarshalOrganisation ⟨id, pk⟩) ∧
      (Keystore.addOrganisation J stub [id, pk]).2.state id
        = some (J.MarshalOrganisation ⟨id, pk⟩) ∧
      (Keystore.getOrganisation (Keystore.addOrganisation J stub [id, pk]).2 [id]).1
        = (Keystore.addOrganisation J stub [id, pk]).1 ∧
      (Keystore.getOrganisation
          (Keystore.addOrganisation J (Keystore.addOrganisation J stub [id, pk]).2 [id, pk2]).2
          [id]).1
        = Response.Success (J.MarshalOrganisation ⟨id, pk2⟩) := by
  have hput1 : (stub.PutState id (J.MarshalOrganisation ⟨id, pk⟩)).1.putErr id = none := by
    rw [PutState_putErr]; exact hput
  have hget1 : (stub.PutState id (J.MarshalOrganisation ⟨id, pk⟩)).1.getErr id = none := by
    rw [PutState_getErr]; exact hget
  rw [Keystore.addOrganisation_two J stub id pk, Keystore.addOrganisation_two J _ id pk2]
  refine ⟨rfl, PutState_state _ _ _ hput, ?_, ?_⟩
  · rw [Keystore.getOrganisation_stored _ id _
      (GetState_after_PutState stub id _ hput hget)]
  · rw [Keystore.getOrganisation_stored _ id _
      (GetState_after_PutState _ id _ hput1 hget1)]

/-- C8 at a concrete input: organisation "Org1MSP" added and read back. -/
theorem add_get_organisation_round_trip_witness :
    (Keystore.addOrganisation goJson emptyStub [str "Org1MSP", str "KEY"]).1
        = Response.Success (str "\x7b\"mspID\":\"Org1MSP\",\"publicKey\":\"KEY\"\x7d") ∧
      (Keystore.getOrganisation
          (Keystore.addOrganisation goJson emptyStub [str "Org1MSP", str "KEY"]).2
          [str "Org1MSP"]).1
        = Response.Success (str "\x7b\"mspID\":\"Org1MSP\",\"publicKey\":\"KEY\"\x7d") := by
  have h := add_get_organisation_round_trip goJson emptyStub (str "Org1MSP") (str "KEY")
    (str "KEY2") rfl rfl
  have e : goJson.MarshalOrganisation ⟨str "Org1MSP", str "KEY"⟩
      = str "\x7b\"mspID\":\"Org1MSP\",\"publicKey\":\"KEY\"\x7d" := by decide
  exact ⟨h.1.trans (congrArg Response.Success e),
    (h.2.2.1.trans h.1).trans (congrArg Response.Success e)⟩

/-- C9 (the code on the failing input). For the function name "foo", which no
dispatcher knows, the Invoke of Keystore and of TransportChain fail with the
fixed message "Invalid Smart Contract function name.", which does not contain
the name; the Invoke of UBL fails with a message that ends in the name. All
three leave the ledger as it is. -/
theorem invoke_unknown_name_message (DecodeString : GoString → Except GoString GoString)
    (J : Json) (stub : Stub) (args : List GoString) :
    Keystore.Invoke J stub (str "foo") args
        = (Response.Error (str "Invalid Smart Contract function name."), stub) ∧
      TransportChain.Invoke J stub (str "foo") args
        = (Response.Error (str "Invalid Smart Contract function name."), stub) ∧
      ¬ Contains (str "Invalid Smart Contract function name.") (str "foo") ∧
      UBL.Invoke DecodeString J stub (str "foo") args
        = (Response.Error (str "Invalid Smart Contract function name:foo"), stub) ∧
      Contains (str "Invalid Smart Contract function name:foo") (str "foo") := by
  refine ⟨?_, ?_, by decide, ?_, by decide⟩
  · exact Keystore.Invoke_unknown_Keystore J stub (str "foo") args (by decide) (by decide)
  · exact TransportChain.Invoke_unknown_TransportChain J stub (str "foo") args (by decide)
      (by decide)
  · rw [UBL.Invoke_unknown_UBL DecodeString J stub (str "foo") args (by decide) (by decide)]
    exact congrArg (fun t => (Response.Error t, stub))
      (show str "Invalid Smart Contract function name:" ++ str "foo"
        = str "Invalid Smart Contract function name:foo" by decide)

/-- C10 (the code on the failing inputs). On a host whose every put fails,
addOrganisation, setTransportChain and addMessage, called with two arguments
and a valid payload, return a success, not a failure, and nothing is stored:
the ledger is as it was. The same on a host that rejects only the empty key,
for addOrganisation with the empty identifier and addMessage with the empty
key. -/
theorem put_failure_returns_success :
    (failingPutStub.PutState (str "Org1MSP")
        (str "\x7b\"mspID\":\"Org1MSP\",\"publicKey\":\"KEY\"\x7d")).2
        = some (str "PUT_STATE failed") ∧
      Keystore.addOrganisation goJson failingPutStub [str "Org1MSP", str "KEY"]
        = (Response.Success (str "\x7b\"mspID\":\"Org1MSP\",\"publicKey\":\"KEY\"\x7d"),
          failingPutStub) ∧
      TransportChain.setTransportChain goJson failingPutStub [str "A", str "x,y"]
        = (Response.Success (str "\x7b\"id\":\"A\",\"participants\":[\"x\",\"y\"]\x7d"),
          failingPutStub) ∧
      UBL.addMessage StdEncoding_DecodeString goJson failingPutStub
          [str "eyJkb2N1bWVudElEIjoiRDEifQ==", str "key1"]
        = (Response.Success (str "Message succesfully saved"), failingPutStub) ∧
      (emptyKeyStub.PutState (str "")
        (str "\x7b\"mspID\":\"\",\"publicKey\":\"KEY\"\x7d")).2
        = some (str "key must not be an empty string") ∧
      Keystore.addOrganisation goJson emptyKeyStub [str "", str "KEY"]
        = (Response.Success (str "\x7b\"mspID\":\"\",\"publicKey\":\"KEY\"\x7d"),
          emptyKeyStub) ∧
      UBL.addMessage StdEncoding_DecodeString goJson emptyKeyStub
          [str "eyJkb2N1bWVudElEIjoiRDEifQ==", str ""]
        = (Response.Success (str "Message succesfully saved"), emptyKeyStub) := by
  have g := put_failure_not_reported StdEncoding_DecodeString goJson emptyKeyStub
    failingPutStub emptyKeyStub (str "") (str "KEY") (str "A") (str "x,y")
    (str "eyJkb2N1bWVudElEIjoiRDEifQ==") (str "\x7b\"documentID\":\"D1\"\x7d") (str "")
    (str "key must not be an empty string") (str "PUT_STATE failed")
    (str "key must not be an empty string") []
    { GoJson.zeroMessage with DocumentID := str "D1" }
    rfl (TransportChain.Loads_absent goJson failingPutStub rfl rfl) rfl rfl rfl rfl
  have e3 : goJson.MarshalOrganisation ⟨str "", str "KEY"⟩
      = str "\x7b\"mspID\":\"\",\"publicKey\":\"KEY\"\x7d" := by decide
  have h := put_failure_not_reported StdEncoding_DecodeString goJson failingPutStub
    failingPutStub failingPutStub (str "Org1MSP") (str "KEY") (str "A") (str "x,y")
    (str "eyJkb2N1bWVudElEIjoiRDEifQ==") (str "\x7b\"documentID\":\"D1\"\x7d") (str "key1")
    (str "PUT_STATE failed") (str "PUT_STATE failed") (str "PUT_STATE failed") []
    { GoJson.zeroMessage with DocumentID := str "D1" }
    rfl (TransportChain.Loads_absent goJson failingPutStub rfl rfl) rfl rfl rfl rfl
  have e1 : goJson.MarshalOrganisation ⟨str "Org1MSP", str "KEY"⟩
      = str "\x7b\"mspID\":\"Org1MSP\",\"publicKey\":\"KEY\"\x7d" := by decide
  have e2 : goJson.MarshalChain ⟨str "A", some (Split (str "x,y") (byte ','))⟩
      = str "\x7b\"id\":\"A\",\"participants\":[\"x\",\"y\"]\x7d" := by decide
  refine ⟨rfl, ?_, ?_, h.2.2, rfl, ?_, g.2.2⟩
  · exact h.1.trans (congrArg (fun t => (Response.Success t, failingPutStub)) e1)
  · exact h.2.1.trans (congrArg (fun t => (Response.Success t, failingPutStub)) e2)
  · exact g.1.trans (congrArg (fun t => (Response.Success t, emptyKeyStub)) e3)
end Smartlog
